import Mathlib

/-!
# Verification of the WiredTiger async worker (`src/async/async_worker.c`)

This file gives a shallow embedding of the async worker code:

* `async_worker_cursor` embeds `__async_worker_cursor` (the per-worker
  cursor cache, lines 43-83);
* `async_worker_execop` embeds `__async_worker_execop` (the op executor,
  lines 89-128);
* `async_worker_op` embeds `__async_worker_op` (the op handler, lines
  134-175);
* a small-step transition system (`Pool`, `step`, `Reach`) embeds the
  worker loop `__wt_async_worker` (lines 181-302) together with the flush
  protocol helper `__async_flush_wait` (lines 15-34).  Every region of the
  loop executed while `opsq_lock` is held is modelled as one atomic step;
  the unlocked regions (condition waits, the op execution, the yield) are
  separate steps, so arbitrary interleavings of the N worker threads are
  covered.

The storage engine (transactions, `open_cursor`, cursor methods, the user
callback) is out of scope for the repository and is modelled as an
environment of result values supplied to the embedded functions; the
embedding records the externally visible interactions in a trace so that
claims about ordering ("rollback before the error propagates", "the
sentinel is never executed") are statable.
-/

namespace AsyncWorker

/-- Engine status code `WT_NOTFOUND` (as in `wiredtiger.in`). -/
def WT_NOTFOUND : Int := -31803

/-- POSIX `EINVAL`, produced by the executor's `default:` branch. -/
def EINVAL : Int := 22

/-- POSIX `ENOMEM`, the failure of `__wt_calloc_def`. -/
def ENOMEM : Int := 12

/-- `op->optype`: `WT_AOP_INSERT/UPDATE/REMOVE/SEARCH`, plus a catch-all
for any other integer value, which the executor's `switch` sends to its
`default:` branch. -/
inductive Optype
  | insert
  | update
  | remove
  | search
  | unknownKind (code : Int)
deriving DecidableEq, Repr

/-- A raw key/value buffer (`WT_ITEM`). -/
structure WtItem where
  data : List Nat
deriving DecidableEq, Repr

/-- `op->state`: `WT_ASYNCOP_FREE / ENQUEUED / WORKING`. -/
inductive OpState
  | free
  | enqueued
  | working
deriving DecidableEq, Repr

/-- `WT_ASYNC_FORMAT`: the (uri, config) pair with the hashes that were
precomputed at format-registration time. -/
structure Format where
  uri : String
  config : String
  uri_hash : Nat
  cfg_hash : Nat
deriving DecidableEq, Repr

/-- The fields of `WT_ASYNC_OP_IMPL` (together with the key/value and the
`WT_CURSTD_KEY_SET`/`WT_CURSTD_VALUE_SET` flags of the embedded
`WT_ASYNC_OP` cursor) that the worker code reads or writes. -/
structure AsyncOpImpl where
  optype : Optype
  format : Format
  key : WtItem
  value : WtItem
  keySet : Bool
  valueSet : Bool
  state : OpState
  hasCallback : Bool
deriving DecidableEq, Repr

/-- A cached cursor entry (`WT_ASYNC_CURSOR`): the hash signature plus the
engine cursor handle, modelled as a number. -/
structure AsyncCursor where
  cfg_hash : Nat
  uri_hash : Nat
  c : Nat
deriving DecidableEq, Repr

/-- `WT_ASYNC_WORKER_STATE`: the worker-private cursor list (head of the
list = head of `cursorqh`, where new entries are inserted) and
`num_cursors`. -/
structure WorkerState where
  cursorqh : List AsyncCursor
  num_cursors : Nat
deriving DecidableEq, Repr

/-- The `STAILQ_FOREACH` loop of `__async_worker_cursor` (lines 55-65):
walk the cache from the head and return the cursor of the first entry
whose `cfg_hash` and `uri_hash` both equal the op format's hashes. -/
def cacheLookup (f : Format) : List AsyncCursor → Option Nat
  | [] => none
  | ac :: rest =>
      if f.cfg_hash = ac.cfg_hash ∧ f.uri_hash = ac.uri_hash then some ac.c
      else cacheLookup f rest

/-- Engine behaviour for one call of `__async_worker_cursor`: the result
of `__wt_calloc_def`, the result of `open_cursor`, and the handle the
engine hands back when the open succeeds. -/
structure CursorEnv where
  callocRet : Int
  openRet : Int
  newCursor : Nat
deriving DecidableEq, Repr

/-- Result of a successful `__async_worker_cursor` call: the cursor, the
worker state after the call, and whether `open_cursor` was called. -/
structure CursorResult where
  cursor : Nat
  worker : WorkerState
  opened : Bool
deriving DecidableEq, Repr

/-- `__async_worker_cursor` (lines 43-83).  A cache hit returns the cached
cursor and leaves the worker state untouched.  On a miss the code
allocates an entry (`WT_RET(__wt_calloc_def ...)`), opens a cursor
(`WT_ERR(wt_session->open_cursor ...)`), and only then fills the entry,
inserts it at the head of `cursorqh` and increments `num_cursors`; if the
open fails the `err:` label frees the never-inserted entry, so the cache
is unchanged on every failure path. -/
def async_worker_cursor (env : CursorEnv) (op : AsyncOpImpl) (w : WorkerState) :
    Except Int CursorResult :=
  match cacheLookup op.format w.cursorqh with
  | some c => .ok ⟨c, w, false⟩
  | none =>
      if env.callocRet ≠ 0 then .error env.callocRet
      else if env.openRet ≠ 0 then .error env.openRet
      else
        .ok ⟨env.newCursor,
             ⟨⟨op.format.cfg_hash, op.format.uri_hash, env.newCursor⟩ :: w.cursorqh,
              w.num_cursors + 1⟩,
             true⟩

/-- The cursor-method calls the executor issues, in order. -/
inductive CursorCall
  | setRawKey (k : WtItem)
  | setRawValue (v : WtItem)
  | callInsert
  | callRemove
  | callSearch
  | getRawValue
deriving DecidableEq, Repr

/-- Engine behaviour of the cursor handed to `__async_worker_execop`: the
return values of `insert`, `remove` and `search`, and the raw value the
cursor exposes after a successful search. -/
structure CursorBehavior where
  insertRet : Int
  removeRet : Int
  searchRet : Int
  searchVal : WtItem
deriving DecidableEq, Repr

/-- Result of `__async_worker_execop`: the returned status, the op's value
buffer after the call, and the cursor calls that were made. -/
structure ExecResult where
  ret : Int
  value : WtItem
  calls : List CursorCall
deriving DecidableEq, Repr

/-- `__async_worker_execop` (lines 89-128).  The key is always bound as
the cursor's raw key (line 102); the value is bound too unless the op is
a SEARCH or a REMOVE (lines 103-104); the `switch` maps INSERT and UPDATE
to `cursor->insert`, REMOVE to `cursor->remove` and SEARCH to
`cursor->search`; a successful search copies the cursor's raw value back
into the op's value (lines 119-120), while `WT_ERR` on a failed search
jumps to `err:` leaving the op's value alone; the `default:` branch is
`WT_ERR_MSG(session, EINVAL, ...)`. -/
def async_worker_execop (op : AsyncOpImpl) (cb : CursorBehavior) : ExecResult :=
  let calls0 := [CursorCall.setRawKey op.key]
  let calls1 := calls0 ++
    (if op.optype ≠ Optype.search ∧ op.optype ≠ Optype.remove then
      [CursorCall.setRawValue op.value]
    else [])
  match op.optype with
  | .insert => ⟨cb.insertRet, op.value, calls1 ++ [CursorCall.callInsert]⟩
  | .update => ⟨cb.insertRet, op.value, calls1 ++ [CursorCall.callInsert]⟩
  | .remove => ⟨cb.removeRet, op.value, calls1 ++ [CursorCall.callRemove]⟩
  | .search =>
      if cb.searchRet = 0 then
        ⟨0, cb.searchVal,
         calls1 ++ [CursorCall.callSearch, CursorCall.getRawValue]⟩
      else ⟨cb.searchRet, op.value, calls1 ++ [CursorCall.callSearch]⟩
  | .unknownKind _ => ⟨EINVAL, op.value, calls1⟩

/-- The engine / callback interactions of one `__async_worker_op` call,
in the order they happen. -/
inductive Event
  | txnBegin
  | openCursor (uri config : String)
  | execDone (status : Int)
  | notifyCb (status : Int) (flags : Int)
  | txnCommit
  | txnRollback
  | cursorReset
deriving DecidableEq, Repr

/-- Environment of one `__async_worker_op` call: results of
`__wt_txn_begin`, of the cursor-cache call, of the cursor methods, of the
user callback (`notify` as a function of the engine status it is handed),
and of `__wt_txn_commit` / `__wt_txn_rollback`. -/
structure OpEnv where
  beginRet : Int
  cursorEnv : CursorEnv
  cursor : CursorBehavior
  notify : Int → Int
  commitRet : Int
  rollbackRet : Int

/-- Result of `__async_worker_op`: its return value, the op and worker
state after the call, and the event trace. -/
structure OpResult where
  ret : Int
  op : AsyncOpImpl
  worker : WorkerState
  trace : List Event
deriving DecidableEq, Repr

/-- `__async_worker_op` (lines 134-175), the op handler.
`WT_RET(__wt_txn_begin ...)` (line 148) returns a begin failure at once;
`WT_RET(__async_worker_cursor ...)` (line 150) likewise returns a cursor
failure at once - with the transaction begun and not resolved, no
callback invoked and the op not recycled.  Otherwise the executor runs,
the callback (when registered) is notified with the executor's status,
the transaction is committed exactly when
`(ret == 0 || ret == WT_NOTFOUND) && cb_ret == 0` and rolled back in
every other case (lines 162-165, with `WT_TRET` recording but not acting
on a commit/rollback error), and then unconditionally `ret` is zeroed,
`op->state` is set to FREE, the KEY_SET/VALUE_SET flags are cleared and
the cached cursor is reset (lines 170-173). -/
def async_worker_op (env : OpEnv) (op : AsyncOpImpl) (w : WorkerState) : OpResult :=
  if env.beginRet ≠ 0 then ⟨env.beginRet, op, w, []⟩
  else
    match async_worker_cursor env.cursorEnv op w with
    | .error e => ⟨e, op, w, [Event.txnBegin]⟩
    | .ok cres =>
        let er := async_worker_execop op env.cursor
        let cbRet := if op.hasCallback then env.notify er.ret else 0
        let openEv : List Event :=
          if cres.opened then [Event.openCursor op.format.uri op.format.config] else []
        let resolveEv : Event :=
          if (er.ret = 0 ∨ er.ret = WT_NOTFOUND) ∧ cbRet = 0 then Event.txnCommit
          else Event.txnRollback
        let notifyEv : List Event :=
          if op.hasCallback then [Event.notifyCb er.ret 0] else []
        ⟨0,
         { op with
            value := er.value
            state := OpState.free
            keySet := false
            valueSet := false },
         cres.worker,
         [Event.txnBegin] ++ openEv ++ [Event.execDone er.ret] ++ notifyEv ++
           [resolveEv, Event.cursorReset]⟩

/-- Line 271-272 of `__wt_async_worker`:
`(void)__async_worker_op(session, op, &worker);` - of the handler's
result, the loop keeps the op, the worker state and the side effects, and
discards the returned status. -/
def loopUse (r : OpResult) : AsyncOpImpl × WorkerState × List Event :=
  (r.op, r.worker, r.trace)

/-! ## The worker loop and the flush protocol

`__wt_async_worker` (lines 181-302) with `__async_flush_wait`
(lines 15-34), as a small-step transition system over the pool of N
worker threads.  All accesses to the queue and the flush state happen
with `opsq_lock` held, so each maximal locked region of the code is one
atomic step; program positions between two locked regions (waiting on
`flush_cond`, the unlocked op execution, the yield at `wait_for_work`)
are the worker program-counter values. -/

/-- An entry of the op queue `async->opqh`: a real op (identified by a
number) or the flush sentinel `&async->flush_op`, which is recognised by
identity at lines 255 and 271. -/
inductive QItem
  | work (id : Nat)
  | sentinel
deriving DecidableEq, Repr

/-- Worker program counter, at the boundaries between atomic regions:

* `atEntry` - at the top of the `while` loop (line 200), about to take
  `opsq_lock`;
* `flushWaiting` - inside `__async_flush_wait` called from line 232, the
  lock released, waiting on `flush_cond`;
* `lastRelock` - the last flusher after line 224: COMPLETE set, FLUSHING
  cleared, the lock released and `flush_cond` signalled, about to
  re-acquire the lock at line 225 and fall through to the dequeue code;
* `armedWaiting` - inside `__async_flush_wait` called from line 264 by
  the worker that popped the sentinel, the lock released;
* `postLock item` - after the unlock at line 269, holding the op that was
  dequeued, about to run line 271 (`if (op != &async->flush_op)`);
* `done` - the worker observed `WT_CONN_SERVER_RUN` clear at line 200 and
  left the loop. -/
inductive WPC
  | atEntry
  | flushWaiting
  | lastRelock
  | armedWaiting
  | postLock (item : QItem)
  | done
deriving DecidableEq, Repr

/-- Observable events of the pool, tagged with the worker index. -/
inductive PEvent
  | dequeue (i : Nat) (item : QItem)
  | armFlush (i : Nat)
  | incr (i : Nat)
  | setComplete (i : Nat)
  | signalFlush (i : Nat)
  | execop (i : Nat) (item : QItem)
deriving DecidableEq, Repr

/-- The shared async state (`WT_ASYNC`) plus the program counters of the
`nworkers` worker threads and the event trace. -/
structure Pool where
  flushInProgress : Bool
  flushing : Bool
  complete : Bool
  flushCount : Nat
  queue : List QItem
  curQueue : Nat
  nworkers : Nat
  pcs : List WPC
  trace : List PEvent
deriving DecidableEq, Repr

/-- Lines 240-265: with the lock held (and `WT_ASYNC_FLUSHING` observed
clear by the caller), take the head of the queue.  An empty queue
releases the lock and goes to `wait_for_work`.  A non-empty queue has its
head removed, `cur_queue` decremented and the op moved to WORKING; if the
head is `&async->flush_op` the worker asserts `WT_ASYNC_FLUSH_IN_PROGRESS`,
sets `WT_ASYNC_FLUSHING`, sets `flush_count = 1` and enters
`__async_flush_wait` (which, FLUSHING being just set, releases the lock
and waits); otherwise the worker releases the lock holding the op. -/
def dequeueBlock (s : Pool) (i : Nat) : Pool :=
  match s.queue with
  | [] => { s with pcs := s.pcs.set i WPC.atEntry }
  | item :: rest =>
      match item with
      | .sentinel =>
          { s with
              queue := rest
              curQueue := s.curQueue - 1
              flushing := true
              flushCount := 1
              pcs := s.pcs.set i WPC.armedWaiting
              trace := s.trace ++ [PEvent.dequeue i QItem.sentinel, PEvent.armFlush i] }
      | .work id =>
          { s with
              queue := rest
              curQueue := s.curQueue - 1
              pcs := s.pcs.set i (WPC.postLock (QItem.work id))
              trace := s.trace ++ [PEvent.dequeue i (QItem.work id)] }

/-- One step of worker `i`, by cases on its program counter.

* At `atEntry` the worker takes the lock (line 201).  If FLUSHING is set
  it increments `flush_count` (line 210): if the new count equals
  `conn->async_workers` it sets COMPLETE, clears FLUSHING, releases the
  lock and signals `flush_cond` (lines 218-224, moving to `lastRelock`);
  otherwise it enters `__async_flush_wait` (line 232, releasing the lock,
  moving to `flushWaiting`).  If FLUSHING is clear it falls through to
  the dequeue code (line 240).
* At `flushWaiting` the worker wakes, re-takes the lock (line 30) and
  re-tests FLUSHING: still set, it releases the lock and waits again
  (modelled as a stutter); clear, `__async_flush_wait` returns with the
  lock held and the worker falls through to the dequeue code in the same
  locked region.
* At `lastRelock` the worker re-acquires the lock (line 225) and falls
  through to the dequeue code with no further FLUSHING test.
* At `armedWaiting` the worker wakes and re-tests FLUSHING: still set it
  keeps waiting; clear, `__async_flush_wait` returns, the lock is
  released (line 269) and the worker holds the sentinel at line 271.
* At `postLock item`, line 271 runs `__async_worker_op` exactly when the
  item is not the flush sentinel, then the worker loops.
* A `done` worker takes no further steps. -/
def workerStep (s : Pool) (i : Nat) : Pool :=
  match s.pcs[i]? with
  | none => s
  | some pc =>
      match pc with
      | .atEntry =>
          if s.flushing then
            if s.flushCount + 1 = s.nworkers then
              { s with
                  flushCount := s.flushCount + 1
                  complete := true
                  flushing := false
                  pcs := s.pcs.set i WPC.lastRelock
                  trace := s.trace ++
                    [PEvent.incr i, PEvent.setComplete i, PEvent.signalFlush i] }
            else
              { s with
                  flushCount := s.flushCount + 1
                  pcs := s.pcs.set i WPC.flushWaiting
                  trace := s.trace ++ [PEvent.incr i] }
          else dequeueBlock s i
      | .flushWaiting =>
          if s.flushing then s else dequeueBlock s i
      | .lastRelock => dequeueBlock s i
      | .armedWaiting =>
          if s.flushing then s
          else { s with pcs := s.pcs.set i (WPC.postLock QItem.sentinel) }
      | .postLock item =>
          match item with
          | .sentinel => { s with pcs := s.pcs.set i WPC.atEntry }
          | .work id =>
              { s with
                  pcs := s.pcs.set i WPC.atEntry
                  trace := s.trace ++ [PEvent.execop i (QItem.work id)] }
      | .done => s

/-- Labels of pool transitions: a step of worker `i`; worker `i`
observing `WT_CONN_SERVER_RUN` clear at the top of its loop; a producer
appending a real op to the queue (`__wt_async_op_enqueue`, which runs
under `opsq_lock`). -/
inductive Lbl
  | work (i : Nat)
  | exit (i : Nat)
  | enq (id : Nat)
deriving DecidableEq, Repr

/-- The labelled transition function of the pool. -/
def step (s : Pool) : Lbl → Option Pool
  | .work i => if i < s.pcs.length then some (workerStep s i) else none
  | .exit i =>
      if s.pcs[i]? = some WPC.atEntry then
        some { s with pcs := s.pcs.set i WPC.done }
      else none
  | .enq id =>
      some { s with
               queue := s.queue ++ [QItem.work id]
               curQueue := s.curQueue + 1 }

/-- Initial pool state for one flush: `n` workers at the top of their
loops, the queue holding the ops enqueued before the flush, the sentinel
(enqueued by the flush initiator with `WT_ASYNC_FLUSH_IN_PROGRESS` set)
and the ops enqueued after it. -/
def initPool (n : Nat) (before after : List Nat) : Pool :=
  { flushInProgress := true
    flushing := false
    complete := false
    flushCount := 0
    queue := before.map QItem.work ++ [QItem.sentinel] ++ after.map QItem.work
    curQueue := before.length + 1 + after.length
    nworkers := n
    pcs := List.replicate n WPC.atEntry
    trace := [] }

/-- Reachability in the pool transition system. -/
inductive Reach : Pool → Pool → Prop
  | refl (s : Pool) : Reach s s
  | tail {s0 s s' : Pool} {l : Lbl} : Reach s0 s → step s l = some s' → Reach s0 s'

/-- The workers named by the `armFlush` events of a trace, in order. -/
def armersOf (t : List PEvent) : List Nat :=
  t.filterMap fun e =>
    match e with
    | .armFlush i => some i
    | _ => none

/-- The workers named by the `incr` events of a trace, in order. -/
def incrersOf (t : List PEvent) : List Nat :=
  t.filterMap fun e =>
    match e with
    | .incr i => some i
    | _ => none

@[simp] theorem armersOf_nil : armersOf [] = [] := rfl

@[simp] theorem armersOf_cons_dequeue (i : Nat) (it : QItem) (t : List PEvent) :
    armersOf (PEvent.dequeue i it :: t) = armersOf t := rfl

@[simp] theorem armersOf_cons_armFlush (i : Nat) (t : List PEvent) :
    armersOf (PEvent.armFlush i :: t) = i :: armersOf t := rfl

@[simp] theorem armersOf_cons_incr (i : Nat) (t : List PEvent) :
    armersOf (PEvent.incr i :: t) = armersOf t := rfl

@[simp] theorem armersOf_cons_setComplete (i : Nat) (t : List PEvent) :
    armersOf (PEvent.setComplete i :: t) = armersOf t := rfl

@[simp] theorem armersOf_cons_signalFlush (i : Nat) (t : List PEvent) :
    armersOf (PEvent.signalFlush i :: t) = armersOf t := rfl

@[simp] theorem armersOf_cons_execop (i : Nat) (it : QItem) (t : List PEvent) :
    armersOf (PEvent.execop i it :: t) = armersOf t := rfl

@[simp] theorem armersOf_append (t u : List PEvent) :
    armersOf (t ++ u) = armersOf t ++ armersOf u :=
  List.filterMap_append t u _

@[simp] theorem incrersOf_nil : incrersOf [] = [] := rfl

@[simp] theorem incrersOf_cons_dequeue (i : Nat) (it : QItem) (t : List PEvent) :
    incrersOf (PEvent.dequeue i it :: t) = incrersOf t := rfl

@[simp] theorem incrersOf_cons_armFlush (i : Nat) (t : List PEvent) :
    incrersOf (PEvent.armFlush i :: t) = incrersOf t := rfl

@[simp] theorem incrersOf_cons_incr (i : Nat) (t : List PEvent) :
    incrersOf (PEvent.incr i :: t) = i :: incrersOf t := rfl

@[simp] theorem incrersOf_cons_setComplete (i : Nat) (t : List PEvent) :
    incrersOf (PEvent.setComplete i :: t) = incrersOf t := rfl

@[simp] theorem incrersOf_cons_signalFlush (i : Nat) (t : List PEvent) :
    incrersOf (PEvent.signalFlush i :: t) = incrersOf t := rfl

@[simp] theorem incrersOf_cons_execop (i : Nat) (it : QItem) (t : List PEvent) :
    incrersOf (PEvent.execop i it :: t) = incrersOf t := rfl

@[simp] theorem incrersOf_append (t u : List PEvent) :
    incrersOf (t ++ u) = incrersOf t ++ incrersOf u :=
  List.filterMap_append t u _

theorem mem_armersOf {t : List PEvent} {j : Nat} :
    j ∈ armersOf t ↔ PEvent.armFlush j ∈ t := by
  simp only [armersOf, List.mem_filterMap]
  constructor
  · rintro ⟨e, he, hf⟩
    cases e <;> simp_all
  · intro h
    exact ⟨_, h, rfl⟩

theorem mem_incrersOf {t : List PEvent} {j : Nat} :
    j ∈ incrersOf t ↔ PEvent.incr j ∈ t := by
  simp only [incrersOf, List.mem_filterMap]
  constructor
  · rintro ⟨e, he, hf⟩
    cases e <;> simp_all
  · intro h
    exact ⟨_, h, rfl⟩

theorem lt_length_of_getElem? {α : Type} {l : List α} {i : Nat} {v : α}
    (h : l[i]? = some v) : i < l.length := by
  by_contra hc
  rw [List.getElem?_eq_none (Nat.le_of_not_lt hc)] at h
  exact Option.noConfusion h

/-- The inductive invariant of the pool transition system, for a run that
starts at `initPool n before after`.  It tracks the phase of the single
flush through the `armFlush` events of the trace: before the sentinel is
popped the queue holds it and no worker is in any flush-related position;
while `WT_ASYNC_FLUSHING` is set, `flush_count` is one more than the
number of `flush_count` increments recorded so far, the workers recorded
as incrementers are exactly the ones parked in `__async_flush_wait` from
line 232, and the worker that popped the sentinel is parked in
`__async_flush_wait` from line 264; once `WT_ASYNC_FLUSH_COMPLETE` is
set, `flush_count` equals `n` and the trace records the sentinel pop plus
exactly `n - 1` increments by pairwise-distinct workers other than the
pop-and-arm worker. -/
structure PoolInv (n : Nat) (s : Pool) : Prop where
  len_pcs : s.pcs.length = n
  nw : s.nworkers = n
  sent_arm :
    (s.queue.count QItem.sentinel = 1 ∧ armersOf s.trace = []) ∨
    (s.queue.count QItem.sentinel = 0 ∧ ∃ a, armersOf s.trace = [a])
  phase0 : armersOf s.trace = [] →
    s.flushing = false ∧ s.complete = false ∧ incrersOf s.trace = [] ∧
    ∀ (i : Nat) (pc : WPC), s.pcs[i]? = some pc →
      pc = WPC.atEntry ∨ pc = WPC.done ∨ ∃ id, pc = WPC.postLock (QItem.work id)
  phase_exh : armersOf s.trace ≠ [] → s.flushing = true ∨ s.complete = true
  flush_inv : s.flushing = true →
    s.complete = false ∧
    s.flushCount = 1 + (incrersOf s.trace).length ∧
    (incrersOf s.trace).Nodup ∧
    (∀ j : Nat, j ∈ incrersOf s.trace ↔ s.pcs[j]? = some WPC.flushWaiting) ∧
    (∀ a : Nat, a ∈ armersOf s.trace → s.pcs[a]? = some WPC.armedWaiting) ∧
    (∀ j : Nat, s.pcs[j]? ≠ some WPC.lastRelock) ∧
    (∀ j : Nat, s.pcs[j]? ≠ some (WPC.postLock QItem.sentinel))
  comp_inv : s.complete = true →
    s.flushing = false ∧
    s.flushCount = n ∧
    (incrersOf s.trace).length = n - 1 ∧
    (incrersOf s.trace).Nodup ∧
    (∃ a, armersOf s.trace = [a] ∧ a < n ∧ a ∉ incrersOf s.trace) ∧
    (∀ j, j ∈ incrersOf s.trace → j < n)
  relock_comp : ∀ j : Nat, s.pcs[j]? = some WPC.lastRelock → s.complete = true
  no_exec_sent : ∀ i, PEvent.execop i QItem.sentinel ∉ s.trace

theorem count_sentinel_map_work (l : List Nat) :
    (l.map QItem.work).count QItem.sentinel = 0 := by
  rw [List.count_eq_zero]
  intro h
  rcases List.mem_map.mp h with ⟨x, _, hx⟩
  exact QItem.noConfusion hx

theorem getElem?_replicate_eq {α : Type} {n i : Nat} {a b : α}
    (h : (List.replicate n a)[i]? = some b) : b = a := by
  have hi : i < n := by
    have := lt_length_of_getElem? h
    simpa using this
  rw [List.getElem?_replicate, if_pos hi] at h
  exact (Option.some_inj.mp h).symm

theorem inv_init (n : Nat) (before after : List Nat) :
    PoolInv n (initPool n before after) := by
  refine
    { len_pcs := List.length_replicate n WPC.atEntry
      nw := rfl
      sent_arm := ?_
      phase0 := ?_
      phase_exh := ?_
      flush_inv := ?_
      comp_inv := ?_
      relock_comp := ?_
      no_exec_sent := ?_ }
  · left
    refine ⟨?_, rfl⟩
    show (before.map QItem.work ++ [QItem.sentinel] ++ after.map QItem.work).count
        QItem.sentinel = 1
    simp [List.count_append, count_sentinel_map_work, List.count_cons]
  · intro _
    refine ⟨rfl, rfl, rfl, ?_⟩
    intro i pc h
    have h' : (List.replicate n WPC.atEntry)[i]? = some pc := h
    exact Or.inl (getElem?_replicate_eq h')
  · intro h
    exact absurd rfl h
  · intro h
    exact Bool.noConfusion h
  · intro h
    exact Bool.noConfusion h
  · intro j h
    have h' : (List.replicate n WPC.atEntry)[j]? = some WPC.lastRelock := h
    exact WPC.noConfusion (getElem?_replicate_eq h')
  · intro i h
    simp only [initPool] at h
    exact List.not_mem_nil _ h

theorem bool_ft {b : Bool} (h1 : b = false) (h2 : b = true) : False := by
  rw [h1] at h2
  exact Bool.noConfusion h2

theorem pcs_set_lookup_cases {α : Type} {l : List α} {i j : Nat} {v pc : α}
    (h : (l.set i v)[j]? = some pc) :
    (i = j ∧ pc = v) ∨ (i ≠ j ∧ l[j]? = some pc) := by
  by_cases hij : i = j
  · subst hij
    left
    refine ⟨rfl, ?_⟩
    have hi : i < l.length := by
      by_contra hc
      rw [List.getElem?_eq_none (by rw [List.length_set]; exact Nat.le_of_not_lt hc)] at h
      exact Option.noConfusion h
    rw [List.getElem?_set_eq_of_lt v hi] at h
    exact (Option.some_inj.mp h).symm
  · right
    rw [List.getElem?_set_ne hij] at h
    exact ⟨hij, h⟩

theorem no_exec_append {t : List PEvent}
    (h : ∀ i : Nat, PEvent.execop i QItem.sentinel ∉ t) (u : List PEvent)
    (hu : ∀ i : Nat, PEvent.execop i QItem.sentinel ∉ u) :
    ∀ i : Nat, PEvent.execop i QItem.sentinel ∉ t ++ u := by
  intro i hmem
  rcases List.mem_append.mp hmem with h1 | h1
  · exact h i h1
  · exact hu i h1

theorem inv_dequeueBlock {n : Nat} {s : Pool} (inv : PoolInv n s) (i : Nat)
    (hfl : s.flushing = false)
    (hpc : s.pcs[i]? = some WPC.atEntry ∨ s.pcs[i]? = some WPC.flushWaiting ∨
           s.pcs[i]? = some WPC.lastRelock) :
    PoolInv n (dequeueBlock s i) := by
  have hin : i < s.pcs.length := by
    rcases hpc with h | h | h <;> exact lt_length_of_getElem? h
  rcases hq : s.queue with _ | ⟨item, rest⟩
  · -- the queue is empty: release the lock and go to wait_for_work
    simp only [dequeueBlock, hq]
    refine
      { len_pcs := by rw [List.length_set]; exact inv.len_pcs
        nw := inv.nw
        sent_arm := ?_
        phase0 := ?_
        phase_exh := inv.phase_exh
        flush_inv := fun hf => (bool_ft hfl hf).elim
        comp_inv := inv.comp_inv
        relock_comp := ?_
        no_exec_sent := inv.no_exec_sent }
    · rcases inv.sent_arm with ⟨hc1, _⟩ | ⟨_, a, ha⟩
      · rw [hq] at hc1
        exact absurd hc1 (by simp)
      · exact Or.inr ⟨by simp, a, ha⟩
    · intro h0
      obtain ⟨hf0, hc0, hi0, hrestrict⟩ := inv.phase0 h0
      refine ⟨hf0, hc0, hi0, ?_⟩
      intro j pc hj
      rcases pcs_set_lookup_cases hj with ⟨_, hpceq⟩ | ⟨_, hj'⟩
      · exact Or.inl hpceq
      · exact hrestrict j pc hj'
    · intro j hj
      rcases pcs_set_lookup_cases hj with ⟨_, hpceq⟩ | ⟨_, hj'⟩
      · exact WPC.noConfusion hpceq
      · exact inv.relock_comp j hj'
  · cases item with
    | sentinel =>
        -- pop-and-arm: the head is the flush sentinel
        rcases inv.sent_arm with ⟨hc1, ha⟩ | ⟨hc0, _⟩
        swap
        · rw [hq] at hc0
          simp [List.count_cons] at hc0
        obtain ⟨hf0, hcomp0, hincr0, hrestrict⟩ := inv.phase0 ha
        have hpci : s.pcs[i]? = some WPC.atEntry := by
          rcases hpc with h | h | h
          · exact h
          · rcases hrestrict i _ h with h' | h' | ⟨id, h'⟩ <;> exact absurd h' (by simp)
          · rcases hrestrict i _ h with h' | h' | ⟨id, h'⟩ <;> exact absurd h' (by simp)
        have hcrest : rest.count QItem.sentinel = 0 := by
          rw [hq] at hc1
          simpa [List.count_cons] using hc1
        simp only [dequeueBlock, hq]
        have hA : armersOf (s.trace ++
            [PEvent.dequeue i QItem.sentinel, PEvent.armFlush i]) = [i] := by
          rw [armersOf_append, ha]
          rfl
        have hI : incrersOf (s.trace ++
            [PEvent.dequeue i QItem.sentinel, PEvent.armFlush i]) = [] := by
          rw [incrersOf_append, hincr0]
          rfl
        refine
          { len_pcs := by rw [List.length_set]; exact inv.len_pcs
            nw := inv.nw
            sent_arm := Or.inr ⟨hcrest, i, hA⟩
            phase0 := ?_
            phase_exh := fun _ => Or.inl rfl
            flush_inv := ?_
            comp_inv := fun hc => (bool_ft hcomp0 hc).elim
            relock_comp := ?_
            no_exec_sent := no_exec_append inv.no_exec_sent _ (by intro j h; simp at h) }
        · intro h0
          rw [hA] at h0
          exact absurd h0 (by simp)
        · intro _
          refine ⟨hcomp0, by rw [hI]; rfl, by rw [hI]; exact List.nodup_nil, ?_, ?_, ?_, ?_⟩
          · intro j
            rw [hI]
            constructor
            · intro h
              exact absurd h (List.not_mem_nil j)
            · intro h
              rcases pcs_set_lookup_cases h with ⟨_, hpceq⟩ | ⟨_, hj'⟩
              · exact WPC.noConfusion hpceq
              · rcases hrestrict j _ hj' with h' | h' | ⟨id, h'⟩ <;>
                  exact absurd h' (by simp)
          · intro a hmem
            rw [hA] at hmem
            have : a = i := by simpa using hmem
            subst this
            exact List.getElem?_set_eq_of_lt WPC.armedWaiting hin
          · intro j hj
            rcases pcs_set_lookup_cases hj with ⟨_, hpceq⟩ | ⟨_, hj'⟩
            · exact WPC.noConfusion hpceq
            · rcases hrestrict j _ hj' with h' | h' | ⟨id, h'⟩ <;>
                exact absurd h' (by simp)
          · intro j hj
            rcases pcs_set_lookup_cases hj with ⟨_, hpceq⟩ | ⟨_, hj'⟩
            · exact WPC.noConfusion hpceq
            · rcases hrestrict j _ hj' with h' | h' | ⟨id, h'⟩ <;>
                exact absurd h' (by simp)
        · intro j hj
          rcases pcs_set_lookup_cases hj with ⟨_, hpceq⟩ | ⟨_, hj'⟩
          · exact WPC.noConfusion hpceq
          · rcases hrestrict j _ hj' with h' | h' | ⟨id, h'⟩ <;>
              exact absurd h' (by simp)
    | work id =>
        -- an ordinary op: pop it and carry it to line 271
        simp only [dequeueBlock, hq]
        have hA : armersOf (s.trace ++ [PEvent.dequeue i (QItem.work id)]) =
            armersOf s.trace := by simp
        have hI : incrersOf (s.trace ++ [PEvent.dequeue i (QItem.work id)]) =
            incrersOf s.trace := by simp
        have hcnt : rest.count QItem.sentinel = s.queue.count QItem.sentinel := by
          rw [hq]
          simp [List.count_cons]
        refine
          { len_pcs := by rw [List.length_set]; exact inv.len_pcs
            nw := inv.nw
            sent_arm := ?_
            phase0 := ?_
            phase_exh := ?_
            flush_inv := fun hf => (bool_ft hfl hf).elim
            comp_inv := ?_
            relock_comp := ?_
            no_exec_sent := no_exec_append inv.no_exec_sent _ (by intro j h; simp at h) }
        · rcases inv.sent_arm with ⟨hc1, ha⟩ | ⟨hc0, a, ha⟩
          · exact Or.inl ⟨by rw [hcnt]; exact hc1, by rw [hA]; exact ha⟩
          · exact Or.inr ⟨by rw [hcnt]; exact hc0, a, by rw [hA]; exact ha⟩
        · intro h0
          rw [hA] at h0
          obtain ⟨hf0, hc0, hi0, hrestrict⟩ := inv.phase0 h0
          refine ⟨hf0, hc0, by rw [hI]; exact hi0, ?_⟩
          intro j pc hj
          rcases pcs_set_lookup_cases hj with ⟨_, hpceq⟩ | ⟨_, hj'⟩
          · exact Or.inr (Or.inr ⟨id, hpceq⟩)
          · exact hrestrict j pc hj'
        · intro hne
          rw [hA] at hne
          exact inv.phase_exh hne
        · intro hc
          obtain ⟨h1, h2, h3, h4, ⟨a, ha1, ha2, ha3⟩, h5⟩ := inv.comp_inv hc
          refine ⟨h1, h2, by rw [hI]; exact h3, by rw [hI]; exact h4,
            ⟨a, by rw [hA]; exact ha1, ha2, by rw [hI]; exact ha3⟩, ?_⟩
          intro j hj
          rw [hI] at hj
          exact h5 j hj
        · intro j hj
          rcases pcs_set_lookup_cases hj with ⟨_, hpceq⟩ | ⟨_, hj'⟩
          · exact WPC.noConfusion hpceq
          · exact inv.relock_comp j hj'

theorem inv_workerStep {n : Nat} {s : Pool} (inv : PoolInv n s) (i : Nat) :
    PoolInv n (workerStep s i) := by
  rcases hpi : s.pcs[i]? with _ | pc
  · simp only [workerStep, hpi]
    exact inv
  · have hin : i < s.pcs.length := lt_length_of_getElem? hpi
    cases pc with
    | atEntry =>
        simp only [workerStep, hpi]
        by_cases hf : s.flushing = true
        case neg =>
            have hf0 : s.flushing = false := by
              revert hf
              cases s.flushing <;> simp
            rw [if_neg hf]
            exact inv_dequeueBlock inv i hf0 (Or.inl hpi)
        case pos =>
            rw [if_pos hf]
            obtain ⟨hcomp, hcount, hnodup, hiff, harm, hnoLR, hnoPS⟩ := inv.flush_inv hf
            have hiNot : i ∉ incrersOf s.trace := by
              intro hmem
              have := (hiff i).mp hmem
              rw [hpi] at this
              exact WPC.noConfusion (Option.some_inj.mp this)
            have hane : armersOf s.trace ≠ [] := by
              intro h0
              exact bool_ft (inv.phase0 h0).1 hf
            rcases inv.sent_arm with ⟨_, ha0⟩ | ⟨hc0, a, ha⟩
            · exact absurd ha0 hane
            have hpa : s.pcs[a]? = some WPC.armedWaiting :=
              harm a (by rw [ha]; exact List.mem_singleton.mpr rfl)
            have hai : a ≠ i := by
              intro h0
              rw [h0, hpi] at hpa
              exact WPC.noConfusion (Option.some_inj.mp hpa)
            by_cases hN : s.flushCount + 1 = s.nworkers
            · rw [if_pos hN]
              have hA : armersOf (s.trace ++
                  [PEvent.incr i, PEvent.setComplete i, PEvent.signalFlush i]) =
                  armersOf s.trace := by simp
              have hInc : incrersOf (s.trace ++
                  [PEvent.incr i, PEvent.setComplete i, PEvent.signalFlush i]) =
                  incrersOf s.trace ++ [i] := by simp
              refine
                { len_pcs := by rw [List.length_set]; exact inv.len_pcs
                  nw := inv.nw
                  sent_arm := Or.inr ⟨hc0, a, by rw [hA]; exact ha⟩
                  phase0 := ?_
                  phase_exh := fun _ => Or.inr rfl
                  flush_inv := fun hf' => Bool.noConfusion hf'
                  comp_inv := ?_
                  relock_comp := fun j _ => rfl
                  no_exec_sent :=
                    no_exec_append inv.no_exec_sent _ (by intro j h; simp at h) }
              · intro h0
                rw [hA, ha] at h0
                exact absurd h0 (by simp)
              · intro _
                refine ⟨rfl, hN.trans inv.nw, ?_, ?_, ?_, ?_⟩
                · rw [hInc, List.length_append, List.length_singleton]
                  have h1 := hcount
                  have h2 := inv.nw
                  omega
                · rw [hInc]
                  refine List.Nodup.append hnodup (List.nodup_singleton i) ?_
                  intro x hx hx'
                  rw [List.mem_singleton] at hx'
                  subst hx'
                  exact hiNot hx
                · refine ⟨a, by rw [hA]; exact ha, ?_, ?_⟩
                  · rw [← inv.len_pcs]
                    exact lt_length_of_getElem? hpa
                  · rw [hInc]
                    intro hmem
                    rcases List.mem_append.mp hmem with h1 | h1
                    · have := (hiff a).mp h1
                      rw [hpa] at this
                      exact WPC.noConfusion (Option.some_inj.mp this)
                    · exact hai (List.mem_singleton.mp h1)
                · intro j hj
                  rw [hInc] at hj
                  rcases List.mem_append.mp hj with h1 | h1
                  · have := (hiff j).mp h1
                    rw [← inv.len_pcs]
                    exact lt_length_of_getElem? this
                  · rw [List.mem_singleton.mp h1, ← inv.len_pcs]
                    exact hin
            · rw [if_neg hN]
              have hA : armersOf (s.trace ++ [PEvent.incr i]) = armersOf s.trace := by
                simp
              have hInc : incrersOf (s.trace ++ [PEvent.incr i]) =
                  incrersOf s.trace ++ [i] := by simp
              refine
                { len_pcs := by rw [List.length_set]; exact inv.len_pcs
                  nw := inv.nw
                  sent_arm := Or.inr ⟨hc0, a, by rw [hA]; exact ha⟩
                  phase0 := ?_
                  phase_exh := fun _ => Or.inl hf
                  flush_inv := ?_
                  comp_inv := fun hc => (bool_ft hcomp hc).elim
                  relock_comp := ?_
                  no_exec_sent :=
                    no_exec_append inv.no_exec_sent _ (by intro j h; simp at h) }
              · intro h0
                rw [hA, ha] at h0
                exact absurd h0 (by simp)
              · intro _
                refine ⟨hcomp, ?_, ?_, ?_, ?_, ?_, ?_⟩
                · show s.flushCount + 1 =
                    1 + (incrersOf (s.trace ++ [PEvent.incr i])).length
                  rw [hInc, List.length_append, List.length_singleton]
                  omega
                · rw [hInc]
                  refine List.Nodup.append hnodup (List.nodup_singleton i) ?_
                  intro x hx hx'
                  rw [List.mem_singleton] at hx'
                  subst hx'
                  exact hiNot hx
                · intro j
                  rw [hInc]
                  constructor
                  · intro hj
                    rcases List.mem_append.mp hj with h1 | h1
                    · have hj' := (hiff j).mp h1
                      have hji : i ≠ j := by
                        intro h0
                        rw [← h0, hpi] at hj'
                        exact WPC.noConfusion (Option.some_inj.mp hj')
                      rw [List.getElem?_set_ne hji]
                      exact hj'
                    · rw [List.mem_singleton.mp h1]
                      exact List.getElem?_set_eq_of_lt WPC.flushWaiting hin
                  · intro hj
                    rcases pcs_set_lookup_cases hj with ⟨hij, _⟩ | ⟨_, hj'⟩
                    · rw [← hij]
                      exact List.mem_append.mpr (Or.inr (List.mem_singleton.mpr rfl))
                    · exact List.mem_append.mpr (Or.inl ((hiff j).mpr hj'))
                · intro a' ha'
                  rw [hA] at ha'
                  have hpa' := harm a' ha'
                  have : a' ≠ i := by
                    intro h0
                    rw [h0, hpi] at hpa'
                    exact WPC.noConfusion (Option.some_inj.mp hpa')
                  rw [List.getElem?_set_ne (Ne.symm this)]
                  exact hpa'
                · intro j hj
                  rcases pcs_set_lookup_cases hj with ⟨_, hpceq⟩ | ⟨_, hj'⟩
                  · exact WPC.noConfusion hpceq
                  · exact hnoLR j hj'
                · intro j hj
                  rcases pcs_set_lookup_cases hj with ⟨_, hpceq⟩ | ⟨_, hj'⟩
                  · exact WPC.noConfusion hpceq
                  · exact hnoPS j hj'
              · intro j hj
                rcases pcs_set_lookup_cases hj with ⟨_, hpceq⟩ | ⟨_, hj'⟩
                · exact WPC.noConfusion hpceq
                · exact absurd hj' (hnoLR j)
    | flushWaiting =>
        simp only [workerStep, hpi]
        by_cases hf : s.flushing = true
        case neg =>
            have hf0 : s.flushing = false := by
              revert hf
              cases s.flushing <;> simp
            rw [if_neg hf]
            exact inv_dequeueBlock inv i hf0 (Or.inr (Or.inl hpi))
        case pos =>
            rw [if_pos hf]
            exact inv
    | lastRelock =>
        simp only [workerStep, hpi]
        have hcomp := inv.relock_comp i hpi
        have hflF := (inv.comp_inv hcomp).1
        exact inv_dequeueBlock inv i hflF (Or.inr (Or.inr hpi))
    | armedWaiting =>
        simp only [workerStep, hpi]
        by_cases hf : s.flushing = true
        case pos =>
            rw [if_pos hf]
            exact inv
        case neg =>
            have hf0 : s.flushing = false := by
              revert hf
              cases s.flushing <;> simp
            rw [if_neg hf]
            have hane : armersOf s.trace ≠ [] := by
              intro h0
              rcases (inv.phase0 h0).2.2.2 i _ hpi with h' | h' | ⟨id, h'⟩ <;>
                exact absurd h' (by simp)
            have hcomp : s.complete = true := by
              rcases inv.phase_exh hane with h' | h'
              · exact absurd h' (by rw [hf0]; simp)
              · exact h'
            refine
              { len_pcs := by rw [List.length_set]; exact inv.len_pcs
                nw := inv.nw
                sent_arm := inv.sent_arm
                phase0 := fun h0 => absurd h0 hane
                phase_exh := fun _ => Or.inr hcomp
                flush_inv := fun hf' => (bool_ft hf0 hf').elim
                comp_inv := inv.comp_inv
                relock_comp := ?_
                no_exec_sent := inv.no_exec_sent }
            intro j hj
            rcases pcs_set_lookup_cases hj with ⟨_, hpceq⟩ | ⟨_, hj'⟩
            · exact WPC.noConfusion hpceq
            · exact inv.relock_comp j hj'
    | postLock item =>
        cases item with
        | sentinel =>
            simp only [workerStep, hpi]
            refine
              { len_pcs := by rw [List.length_set]; exact inv.len_pcs
                nw := inv.nw
                sent_arm := inv.sent_arm
                phase0 := ?_
                phase_exh := inv.phase_exh
                flush_inv := ?_
                comp_inv := inv.comp_inv
                relock_comp := ?_
                no_exec_sent := inv.no_exec_sent }
            · intro h0
              rcases (inv.phase0 h0).2.2.2 i _ hpi with h' | h' | ⟨id, h'⟩ <;>
                simp at h'
            · intro hf
              exact absurd hpi ((inv.flush_inv hf).2.2.2.2.2.2 i)
            · intro j hj
              rcases pcs_set_lookup_cases hj with ⟨_, hpceq⟩ | ⟨_, hj'⟩
              · exact WPC.noConfusion hpceq
              · exact inv.relock_comp j hj'
        | work id =>
            simp only [workerStep, hpi]
            have hA : armersOf (s.trace ++ [PEvent.execop i (QItem.work id)]) =
                armersOf s.trace := by simp
            have hInc : incrersOf (s.trace ++ [PEvent.execop i (QItem.work id)]) =
                incrersOf s.trace := by simp
            refine
              { len_pcs := by rw [List.length_set]; exact inv.len_pcs
                nw := inv.nw
                sent_arm := ?_
                phase0 := ?_
                phase_exh := by rw [hA]; exact inv.phase_exh
                flush_inv := ?_
                comp_inv := ?_
                relock_comp := ?_
                no_exec_sent := no_exec_append inv.no_exec_sent _
                  (by intro j h; simp at h) }
            · rcases inv.sent_arm with ⟨hc1, ha⟩ | ⟨hc0, a, ha⟩
              · exact Or.inl ⟨hc1, by rw [hA]; exact ha⟩
              · exact Or.inr ⟨hc0, a, by rw [hA]; exact ha⟩
            · intro h0
              rw [hA] at h0
              obtain ⟨hf0, hc0, hi0, hrestrict⟩ := inv.phase0 h0
              refine ⟨hf0, hc0, by rw [hInc]; exact hi0, ?_⟩
              intro j pc hj
              rcases pcs_set_lookup_cases hj with ⟨_, hpceq⟩ | ⟨_, hj'⟩
              · exact Or.inl hpceq
              · exact hrestrict j pc hj'
            · intro hf
              obtain ⟨hcomp, hcount, hnodup, hiff, harm, hnoLR, hnoPS⟩ :=
                inv.flush_inv hf
              refine ⟨hcomp, by rw [hInc]; exact hcount, by rw [hInc]; exact hnodup,
                ?_, ?_, ?_, ?_⟩
              · intro j
                rw [hInc]
                constructor
                · intro hj
                  have hj' := (hiff j).mp hj
                  have hji : i ≠ j := by
                    intro h0
                    rw [← h0, hpi] at hj'
                    exact WPC.noConfusion (Option.some_inj.mp hj')
                  rw [List.getElem?_set_ne hji]
                  exact hj'
                · intro hj
                  rcases pcs_set_lookup_cases hj with ⟨_, hpceq⟩ | ⟨_, hj'⟩
                  · exact WPC.noConfusion hpceq
                  · exact (hiff j).mpr hj'
              · intro a' ha'
                rw [hA] at ha'
                have hpa' := harm a' ha'
                have : a' ≠ i := by
                  intro h0
                  rw [h0, hpi] at hpa'
                  exact WPC.noConfusion (Option.some_inj.mp hpa')
                rw [List.getElem?_set_ne (Ne.symm this)]
                exact hpa'
              · intro j hj
                rcases pcs_set_lookup_cases hj with ⟨_, hpceq⟩ | ⟨_, hj'⟩
                · exact WPC.noConfusion hpceq
                · exact hnoLR j hj'
              · intro j hj
                rcases pcs_set_lookup_cases hj with ⟨_, hpceq⟩ | ⟨_, hj'⟩
                · exact WPC.noConfusion hpceq
                · exact hnoPS j hj'
            · intro hc
              obtain ⟨h1, h2, h3, h4, ⟨a, ha1, ha2, ha3⟩, h5⟩ := inv.comp_inv hc
              refine ⟨h1, h2, by rw [hInc]; exact h3, by rw [hInc]; exact h4,
                ⟨a, by rw [hA]; exact ha1, ha2, by rw [hInc]; exact ha3⟩, ?_⟩
              intro j hj
              rw [hInc] at hj
              exact h5 j hj
            · intro j hj
              rcases pcs_set_lookup_cases hj with ⟨_, hpceq⟩ | ⟨_, hj'⟩
              · exact WPC.noConfusion hpceq
              · exact inv.relock_comp j hj'
    | done =>
        simp only [workerStep, hpi]
        exact inv

theorem inv_step {n : Nat} {s s' : Pool} {l : Lbl} (inv : PoolInv n s)
    (h : step s l = some s') : PoolInv n s' := by
  cases l with
  | work i =>
      simp only [step] at h
      by_cases hi : i < s.pcs.length
      · rw [if_pos hi] at h
        cases Option.some_inj.mp h
        exact inv_workerStep inv i
      · rw [if_neg hi] at h
        exact Option.noConfusion h
  | exit i =>
      simp only [step] at h
      by_cases hi : s.pcs[i]? = some WPC.atEntry
      · rw [if_pos hi] at h
        cases Option.some_inj.mp h
        refine
          { len_pcs := by rw [List.length_set]; exact inv.len_pcs
            nw := inv.nw
            sent_arm := inv.sent_arm
            phase0 := ?_
            phase_exh := inv.phase_exh
            flush_inv := ?_
            comp_inv := inv.comp_inv
            relock_comp := ?_
            no_exec_sent := inv.no_exec_sent }
        · intro h0
          obtain ⟨hf0, hc0, hi0, hrestrict⟩ := inv.phase0 h0
          refine ⟨hf0, hc0, hi0, ?_⟩
          intro j pc hj
          rcases pcs_set_lookup_cases hj with ⟨_, hpceq⟩ | ⟨_, hj'⟩
          · exact Or.inr (Or.inl hpceq)
          · exact hrestrict j pc hj'
        · intro hf
          obtain ⟨hcomp, hcount, hnodup, hiff, harm, hnoLR, hnoPS⟩ := inv.flush_inv hf
          refine ⟨hcomp, hcount, hnodup, ?_, ?_, ?_, ?_⟩
          · intro j
            constructor
            · intro hj
              have hj' := (hiff j).mp hj
              have hji : i ≠ j := by
                intro h0
                rw [← h0, hi] at hj'
                exact WPC.noConfusion (Option.some_inj.mp hj')
              rw [List.getElem?_set_ne hji]
              exact hj'
            · intro hj
              rcases pcs_set_lookup_cases hj with ⟨_, hpceq⟩ | ⟨_, hj'⟩
              · exact WPC.noConfusion hpceq
              · exact (hiff j).mpr hj'
          · intro a' ha'
            have hpa' := harm a' ha'
            have : a' ≠ i := by
              intro h0
              rw [h0, hi] at hpa'
              exact WPC.noConfusion (Option.some_inj.mp hpa')
            rw [List.getElem?_set_ne (Ne.symm this)]
            exact hpa'
          · intro j hj
            rcases pcs_set_lookup_cases hj with ⟨_, hpceq⟩ | ⟨_, hj'⟩
            · exact WPC.noConfusion hpceq
            · exact hnoLR j hj'
          · intro j hj
            rcases pcs_set_lookup_cases hj with ⟨_, hpceq⟩ | ⟨_, hj'⟩
            · exact WPC.noConfusion hpceq
            · exact hnoPS j hj'
        · intro j hj
          rcases pcs_set_lookup_cases hj with ⟨_, hpceq⟩ | ⟨_, hj'⟩
          · exact WPC.noConfusion hpceq
          · exact inv.relock_comp j hj'
      · rw [if_neg hi] at h
        exact Option.noConfusion h
  | enq id =>
      simp only [step] at h
      cases Option.some_inj.mp h
      refine
        { len_pcs := inv.len_pcs
          nw := inv.nw
          sent_arm := ?_
          phase0 := inv.phase0
          phase_exh := inv.phase_exh
          flush_inv := inv.flush_inv
          comp_inv := inv.comp_inv
          relock_comp := inv.relock_comp
          no_exec_sent := inv.no_exec_sent }
      have hcnt : (s.queue ++ [QItem.work id]).count QItem.sentinel =
          s.queue.count QItem.sentinel := by
        simp [List.count_append]
      rcases inv.sent_arm with ⟨hc1, ha⟩ | ⟨hc0, a, ha⟩
      · exact Or.inl ⟨by rw [hcnt]; exact hc1, ha⟩
      · exact Or.inr ⟨by rw [hcnt]; exact hc0, a, ha⟩

theorem reach_inv {n : Nat} {before after : List Nat} {s : Pool}
    (h : Reach (initPool n before after) s) : PoolInv n s := by
  induction h with
  | refl => exact inv_init n before after
  | tail _ hstep ih => exact inv_step ih hstep

/-! ## Facts about the embedded sequential functions -/

theorem async_worker_op_cursor_fail (env : OpEnv) (op : AsyncOpImpl) (w : WorkerState)
    (e : Int) (hbegin : env.beginRet = 0)
    (hcur : async_worker_cursor env.cursorEnv op w = Except.error e) :
    async_worker_op env op w = ⟨e, op, w, [Event.txnBegin]⟩ := by
  rw [async_worker_op, if_neg (show ¬env.beginRet ≠ 0 by rw [hbegin]; simp), hcur]

theorem async_worker_op_ok (env : OpEnv) (op : AsyncOpImpl) (w : WorkerState)
    (cres : CursorResult) (hbegin : env.beginRet = 0)
    (hcur : async_worker_cursor env.cursorEnv op w = Except.ok cres) :
    async_worker_op env op w =
      ⟨0,
       { op with
          value := (async_worker_execop op env.cursor).value
          state := OpState.free
          keySet := false
          valueSet := false },
       cres.worker,
       [Event.txnBegin] ++
         (if cres.opened then [Event.openCursor op.format.uri op.format.config]
          else []) ++
         [Event.execDone (async_worker_execop op env.cursor).ret] ++
         (if op.hasCallback then
            [Event.notifyCb (async_worker_execop op env.cursor).ret 0]
          else []) ++
         [(if ((async_worker_execop op env.cursor).ret = 0 ∨
               (async_worker_execop op env.cursor).ret = WT_NOTFOUND) ∧
              (if op.hasCallback then
                 env.notify (async_worker_execop op env.cursor).ret
               else 0) = 0
           then Event.txnCommit
           else Event.txnRollback),
          Event.cursorReset]⟩ := by
  rw [async_worker_op, if_neg (show ¬env.beginRet ≠ 0 by rw [hbegin]; simp), hcur]

theorem cacheLookup_some {f : Format} {l : List AsyncCursor} {c : Nat}
    (h : cacheLookup f l = some c) :
    ∃ ac ∈ l, ac.c = c ∧ ac.cfg_hash = f.cfg_hash ∧ ac.uri_hash = f.uri_hash := by
  induction l with
  | nil => exact Option.noConfusion h
  | cons a rest ih =>
      rw [cacheLookup] at h
      by_cases hp : f.cfg_hash = a.cfg_hash ∧ f.uri_hash = a.uri_hash
      · rw [if_pos hp] at h
        exact ⟨a, List.mem_cons_self a rest,
          Option.some_inj.mp h, hp.1.symm, hp.2.symm⟩
      · rw [if_neg hp] at h
        obtain ⟨ac, hmem, hrest⟩ := ih h
        exact ⟨ac, List.mem_cons_of_mem a hmem, hrest⟩

theorem cacheLookup_isSome_of_mem {f : Format} {l : List AsyncCursor}
    {ac : AsyncCursor} (hmem : ac ∈ l) (h1 : ac.cfg_hash = f.cfg_hash)
    (h2 : ac.uri_hash = f.uri_hash) : ∃ c, cacheLookup f l = some c := by
  induction l with
  | nil => exact absurd hmem (List.not_mem_nil ac)
  | cons a rest ih =>
      rw [cacheLookup]
      by_cases hp : f.cfg_hash = a.cfg_hash ∧ f.uri_hash = a.uri_hash
      · rw [if_pos hp]
        exact ⟨a.c, rfl⟩
      · rw [if_neg hp]
        rcases List.mem_cons.mp hmem with h | h
        · subst h
          exact absurd ⟨h1.symm, h2.symm⟩ hp
        · exact ih h

theorem async_worker_cursor_ok_entry (env : CursorEnv) (op : AsyncOpImpl)
    (w : WorkerState) (cres : CursorResult)
    (h : async_worker_cursor env op w = Except.ok cres) :
    ∃ ac ∈ cres.worker.cursorqh, ac.c = cres.cursor ∧
      ac.cfg_hash = op.format.cfg_hash ∧ ac.uri_hash = op.format.uri_hash := by
  rw [async_worker_cursor] at h
  rcases hl : cacheLookup op.format w.cursorqh with _ | c
  all_goals rw [hl] at h
  · by_cases hc : env.callocRet ≠ 0
    · rw [if_pos hc] at h
      exact Except.noConfusion h
    · rw [if_neg hc] at h
      by_cases ho : env.openRet ≠ 0
      · rw [if_pos ho] at h
        exact Except.noConfusion h
      · rw [if_neg ho] at h
        cases Except.ok.injEq .. ▸ h
        exact ⟨⟨op.format.cfg_hash, op.format.uri_hash, env.newCursor⟩,
          List.mem_cons_self _ _, rfl, rfl, rfl⟩
  · cases Except.ok.injEq .. ▸ h
    obtain ⟨ac, hmem, h1, h2, h3⟩ := cacheLookup_some hl
    exact ⟨ac, hmem, h1, h2, h3⟩

/-- Modelled from the spec's words for comparison in C6: "Lookup compares
`(uri_hash, config_hash)` against entries in insertion order; first match
wins" - the first entry of the list whose hash pair equals the format's
hash pair, and its cursor. -/
def lookupSpecFirstMatch (f : Format) (l : List AsyncCursor) : Option Nat :=
  (l.find? fun ac => f.cfg_hash == ac.cfg_hash && f.uri_hash == ac.uri_hash).map
    AsyncCursor.c

/-! ## Claims C1, C2, C6 - C10 (the op handler, executor and cursor cache) -/

/-- C1, counterexample: on an op where `__wt_txn_begin` succeeds and the
cursor-cache call fails (here: `open_cursor` returns -1 on an empty
cache), the handler `__async_worker_op` returns the engine status with
the transaction NOT rolled back, the callback NOT notified, and the op
NOT recycled (its state stays WORKING), refuting the claim that the
rollback, the notification and the recycling happen before the error
propagates.  (The cursor cache is indeed left unchanged.) -/
theorem claim_C1_counterexample :
    async_worker_cursor
      (CursorEnv.mk 0 (-1) 0)
      (AsyncOpImpl.mk Optype.insert (Format.mk "table:a" "" 11 22)
        (WtItem.mk [1]) (WtItem.mk [2]) true true OpState.working true)
      (WorkerState.mk [] 0) = Except.error (-1) ∧
    async_worker_op
      (OpEnv.mk 0 (CursorEnv.mk 0 (-1) 0) (CursorBehavior.mk 0 0 0 (WtItem.mk []))
        (fun _ => 0) 0 0)
      (AsyncOpImpl.mk Optype.insert (Format.mk "table:a" "" 11 22)
        (WtItem.mk [1]) (WtItem.mk [2]) true true OpState.working true)
      (WorkerState.mk [] 0) =
      OpResult.mk (-1)
        (AsyncOpImpl.mk Optype.insert (Format.mk "table:a" "" 11 22)
          (WtItem.mk [1]) (WtItem.mk [2]) true true OpState.working true)
        (WorkerState.mk [] 0) [Event.txnBegin] ∧
    Event.txnRollback ∉
      (async_worker_op
        (OpEnv.mk 0 (CursorEnv.mk 0 (-1) 0) (CursorBehavior.mk 0 0 0 (WtItem.mk []))
          (fun _ => 0) 0 0)
        (AsyncOpImpl.mk Optype.insert (Format.mk "table:a" "" 11 22)
          (WtItem.mk [1]) (WtItem.mk [2]) true true OpState.working true)
        (WorkerState.mk [] 0)).trace ∧
    Event.notifyCb (-1) 0 ∉
      (async_worker_op
        (OpEnv.mk 0 (CursorEnv.mk 0 (-1) 0) (CursorBehavior.mk 0 0 0 (WtItem.mk []))
          (fun _ => 0) 0 0)
        (AsyncOpImpl.mk Optype.insert (Format.mk "table:a" "" 11 22)
          (WtItem.mk [1]) (WtItem.mk [2]) true true OpState.working true)
        (WorkerState.mk [] 0)).trace ∧
    (async_worker_op
      (OpEnv.mk 0 (CursorEnv.mk 0 (-1) 0) (CursorBehavior.mk 0 0 0 (WtItem.mk []))
        (fun _ => 0) 0 0)
      (AsyncOpImpl.mk Optype.insert (Format.mk "table:a" "" 11 22)
        (WtItem.mk [1]) (WtItem.mk [2]) true true OpState.working true)
      (WorkerState.mk [] 0)).op.state = OpState.working := by
  refine ⟨by rfl, by decide, by decide, by decide, by decide⟩

/-- C1, amended: if `__wt_txn_begin` succeeds and the cursor-cache call
fails (allocation or `open_cursor` error), the handler returns the error
immediately (`WT_RET` at line 150): the transaction is left begun and
unresolved (no rollback, no commit), no callback notification happens,
the op is not recycled (op and its state are unchanged), and the worker's
cursor cache is left unchanged (the partially allocated entry was
released inside `__async_worker_cursor`). -/
theorem claim_C1_amended (env : OpEnv) (op : AsyncOpImpl) (w : WorkerState) (e : Int)
    (hbegin : env.beginRet = 0)
    (hcur : async_worker_cursor env.cursorEnv op w = Except.error e) :
    async_worker_op env op w = ⟨e, op, w, [Event.txnBegin]⟩ ∧
    Event.txnRollback ∉ (async_worker_op env op w).trace ∧
    Event.txnCommit ∉ (async_worker_op env op w).trace ∧
    (∀ st fl : Int, Event.notifyCb st fl ∉ (async_worker_op env op w).trace) ∧
    (async_worker_op env op w).worker = w ∧
    (async_worker_op env op w).op = op := by
  have heq := async_worker_op_cursor_fail env op w e hbegin hcur
  rw [heq]
  refine ⟨rfl, by simp, by simp, ?_, rfl, rfl⟩
  intro st fl
  simp

/-- C1, amended, witness at the concrete failing input of the
counterexample. -/
theorem claim_C1_amended_witness :
    async_worker_op
      (OpEnv.mk 0 (CursorEnv.mk 0 (-1) 0) (CursorBehavior.mk 0 0 0 (WtItem.mk []))
        (fun _ => 0) 0 0)
      (AsyncOpImpl.mk Optype.insert (Format.mk "table:a" "" 11 22)
        (WtItem.mk [1]) (WtItem.mk [2]) true true OpState.working true)
      (WorkerState.mk [] 0) =
      OpResult.mk (-1)
        (AsyncOpImpl.mk Optype.insert (Format.mk "table:a" "" 11 22)
          (WtItem.mk [1]) (WtItem.mk [2]) true true OpState.working true)
        (WorkerState.mk [] 0) [Event.txnBegin] :=
  (claim_C1_amended _ _ _ (-1) rfl (by rfl)).1

/-- C2: for every op that reaches the commit/rollback step (transaction
begun and cursor obtained), the transaction is committed if and only if
the executor's status is 0 or `WT_NOTFOUND` and the callback's return
value (0 when no callback is registered) is 0; in every other case it is
rolled back (lines 162-165). -/
theorem claim_C2_commit_rollback_law (env : OpEnv) (op : AsyncOpImpl)
    (w : WorkerState) (cres : CursorResult) (hbegin : env.beginRet = 0)
    (hcur : async_worker_cursor env.cursorEnv op w = Except.ok cres) :
    (Event.txnCommit ∈ (async_worker_op env op w).trace ↔
      (((async_worker_execop op env.cursor).ret = 0 ∨
        (async_worker_execop op env.cursor).ret = WT_NOTFOUND) ∧
       (if op.hasCallback then env.notify (async_worker_execop op env.cursor).ret
        else 0) = 0)) ∧
    (Event.txnRollback ∈ (async_worker_op env op w).trace ↔
      ¬(((async_worker_execop op env.cursor).ret = 0 ∨
         (async_worker_execop op env.cursor).ret = WT_NOTFOUND) ∧
        (if op.hasCallback then env.notify (async_worker_execop op env.cursor).ret
         else 0) = 0)) := by
  have heq := async_worker_op_ok env op w cres hbegin hcur
  rw [heq]
  by_cases hcb : op.hasCallback <;>
    by_cases ho : cres.opened <;>
      by_cases hr : ((async_worker_execop op env.cursor).ret = 0 ∨
        (async_worker_execop op env.cursor).ret = WT_NOTFOUND) <;>
        by_cases hn : (if op.hasCallback then
            env.notify (async_worker_execop op env.cursor).ret
          else 0) = 0 <;>
          simp_all

/-- C2 witness: a concrete SEARCH that returns `WT_NOTFOUND` with a
callback returning 0 commits; the same op with a callback returning 1
rolls back. -/
theorem claim_C2_witness :
    Event.txnCommit ∈
      (async_worker_op
        (OpEnv.mk 0 (CursorEnv.mk 0 0 5) (CursorBehavior.mk 0 0 WT_NOTFOUND (WtItem.mk []))
          (fun _ => 0) 0 0)
        (AsyncOpImpl.mk Optype.search (Format.mk "table:a" "" 11 22)
          (WtItem.mk [1]) (WtItem.mk [2]) true true OpState.working true)
        (WorkerState.mk [] 0)).trace ∧
    Event.txnRollback ∈
      (async_worker_op
        (OpEnv.mk 0 (CursorEnv.mk 0 0 5) (CursorBehavior.mk 0 0 WT_NOTFOUND (WtItem.mk []))
          (fun _ => 1) 0 0)
        (AsyncOpImpl.mk Optype.search (Format.mk "table:a" "" 11 22)
          (WtItem.mk [1]) (WtItem.mk [2]) true true OpState.working true)
        (WorkerState.mk [] 0)).trace := by
  constructor
  · exact ((claim_C2_commit_rollback_law _ _ _
      (CursorResult.mk 5 (WorkerState.mk [AsyncCursor.mk 22 11 5] 1) true)
      rfl (by rfl)).1).mpr (by decide)
  · exact ((claim_C2_commit_rollback_law _ _ _
      (CursorResult.mk 5 (WorkerState.mk [AsyncCursor.mk 22 11 5] 1) true)
      rfl (by rfl)).2).mpr (by decide)

/-- C6: the cursor-cache lookup of `__async_worker_cursor` (lines 55-65)
examines the entries in list order (the order maintained by head
insertion) and the first entry whose precomputed `(uri_hash, cfg_hash)`
pair matches the op's format wins (first conjunct, against the
spec-modelled first-match function); only the hashes are compared - the
lookup's result depends solely on the format's hashes, never on the uri
or config strings (second conjunct); and the returned cursor comes from a
cached entry carrying exactly the op format's hash signature (third
conjunct). -/
theorem claim_C6_cache_lookup :
    (∀ (f : Format) (l : List AsyncCursor),
      cacheLookup f l = lookupSpecFirstMatch f l) ∧
    (∀ (f g : Format) (l : List AsyncCursor),
      f.uri_hash = g.uri_hash → f.cfg_hash = g.cfg_hash →
      cacheLookup f l = cacheLookup g l) ∧
    (∀ (f : Format) (l : List AsyncCursor) (c : Nat),
      cacheLookup f l = some c →
      (l.any fun ac =>
        ac.c == c && ac.cfg_hash == f.cfg_hash && ac.uri_hash == f.uri_hash) =
        true) := by
  refine ⟨?_, ?_, ?_⟩
  · intro f l
    induction l with
    | nil => rfl
    | cons a rest ih =>
        rw [cacheLookup]
        by_cases hp : f.cfg_hash = a.cfg_hash ∧ f.uri_hash = a.uri_hash
        · rw [if_pos hp, lookupSpecFirstMatch,
            List.find?_cons_of_pos _ (by simp [hp.1, hp.2])]
          rfl
        · rw [if_neg hp, ih, lookupSpecFirstMatch, lookupSpecFirstMatch,
            List.find?_cons_of_neg _ (by simpa using hp)]
  · intro f g l hu hc
    induction l with
    | nil => rfl
    | cons a rest ih =>
        rw [cacheLookup, cacheLookup]
        by_cases hp : g.cfg_hash = a.cfg_hash ∧ g.uri_hash = a.uri_hash
        · rw [if_pos hp, if_pos (by rw [hc, hu]; exact hp)]
        · rw [if_neg hp, if_neg (by rw [hc, hu]; exact hp), ih]
  · intro f l c h
    obtain ⟨ac, hmem, h1, h2, h3⟩ := cacheLookup_some h
    exact List.any_eq_true.mpr ⟨ac, hmem, by simp [h1, h2, h3]⟩

/-- C6 witness: a cache holding a non-matching entry before a matching
one; the lookup skips the first entry and returns the second entry's
cursor, regardless of the uri/config strings of the probing format. -/
theorem claim_C6_witness :
    cacheLookup (Format.mk "table:a" "x" 11 22)
        [AsyncCursor.mk 9 9 1, AsyncCursor.mk 22 11 2] =
      lookupSpecFirstMatch (Format.mk "table:a" "x" 11 22)
        [AsyncCursor.mk 9 9 1, AsyncCursor.mk 22 11 2] ∧
    cacheLookup (Format.mk "table:a" "x" 11 22)
        [AsyncCursor.mk 9 9 1, AsyncCursor.mk 22 11 2] =
      cacheLookup (Format.mk "table:b" "y" 11 22)
        [AsyncCursor.mk 9 9 1, AsyncCursor.mk 22 11 2] ∧
    (([AsyncCursor.mk 9 9 1, AsyncCursor.mk 22 11 2].any fun ac =>
        ac.c == 2 && ac.cfg_hash == 22 && ac.uri_hash == 11) = true) :=
  ⟨claim_C6_cache_lookup.1 _ _,
   claim_C6_cache_lookup.2.1 _ _ _ rfl rfl,
   claim_C6_cache_lookup.2.2 (Format.mk "table:a" "x" 11 22) _ 2 (by rfl)⟩

/-- C7: the executor `__async_worker_execop` binds the op's key as the
cursor's raw key first; INSERT and UPDATE dispatch to `cursor->insert`,
REMOVE to `cursor->remove`, SEARCH to `cursor->search`; a successful
search copies the cursor's raw value into the op's value while a
`WT_NOTFOUND` search leaves the op's value unchanged; an unknown op kind
returns `EINVAL`. -/
theorem claim_C7_executor_dispatch (op : AsyncOpImpl) (cb : CursorBehavior) :
    ((async_worker_execop op cb).calls.head? =
      some (CursorCall.setRawKey op.key)) ∧
    (op.optype = Optype.insert ∨ op.optype = Optype.update →
      (async_worker_execop op cb).ret = cb.insertRet ∧
      CursorCall.callInsert ∈ (async_worker_execop op cb).calls) ∧
    (op.optype = Optype.remove →
      (async_worker_execop op cb).ret = cb.removeRet ∧
      CursorCall.callRemove ∈ (async_worker_execop op cb).calls) ∧
    (op.optype = Optype.search →
      CursorCall.callSearch ∈ (async_worker_execop op cb).calls ∧
      (cb.searchRet = 0 →
        (async_worker_execop op cb).ret = 0 ∧
        (async_worker_execop op cb).value = cb.searchVal) ∧
      (cb.searchRet = WT_NOTFOUND →
        (async_worker_execop op cb).ret = WT_NOTFOUND ∧
        (async_worker_execop op cb).value = op.value)) ∧
    (∀ code : Int, op.optype = Optype.unknownKind code →
      (async_worker_execop op cb).ret = EINVAL) := by
  rcases hop : op.optype with _ | _ | _ | _ | code
  · refine ⟨by simp [async_worker_execop, hop], fun _ => ⟨?_, ?_⟩, ?_, ?_, ?_⟩ <;>
      simp [async_worker_execop, hop]
  · refine ⟨by simp [async_worker_execop, hop], fun _ => ⟨?_, ?_⟩, ?_, ?_, ?_⟩ <;>
      simp [async_worker_execop, hop]
  · refine ⟨by simp [async_worker_execop, hop], ?_, fun _ => ⟨?_, ?_⟩, ?_, ?_⟩ <;>
      simp [async_worker_execop, hop]
  · refine ⟨?_, ?_, ?_, fun _ => ⟨?_, ?_, ?_⟩, ?_⟩
    · by_cases hs : cb.searchRet = 0 <;> simp [async_worker_execop, hop, hs]
    · simp [hop]
    · simp [hop]
    · by_cases hs : cb.searchRet = 0 <;> simp [async_worker_execop, hop, hs]
    · intro hs
      simp [async_worker_execop, hop, hs]
    · intro hs
      have hs0 : ¬cb.searchRet = 0 := by
        rw [hs]
        decide
      simp [async_worker_execop, hop, hs0, hs, WT_NOTFOUND]
    · simp [hop]
  · refine ⟨by simp [async_worker_execop, hop], ?_, ?_, ?_, ?_⟩ <;>
      simp [async_worker_execop, hop]

/-- C7 witness: concrete executions - an INSERT returning the cursor's
insert status, a successful SEARCH copying the cursor value into the op,
a `WT_NOTFOUND` SEARCH leaving the op value unchanged, and an unknown op
kind returning `EINVAL`. -/
theorem claim_C7_witness :
    (async_worker_execop
      (AsyncOpImpl.mk Optype.insert (Format.mk "t" "" 1 2) (WtItem.mk [1])
        (WtItem.mk [2]) true true OpState.working false)
      (CursorBehavior.mk 3 4 5 (WtItem.mk [9]))).ret = 3 ∧
    (async_worker_execop
      (AsyncOpImpl.mk Optype.search (Format.mk "t" "" 1 2) (WtItem.mk [1])
        (WtItem.mk [2]) true true OpState.working false)
      (CursorBehavior.mk 3 4 0 (WtItem.mk [9]))).value = WtItem.mk [9] ∧
    (async_worker_execop
      (AsyncOpImpl.mk Optype.search (Format.mk "t" "" 1 2) (WtItem.mk [1])
        (WtItem.mk [2]) true true OpState.working false)
      (CursorBehavior.mk 3 4 WT_NOTFOUND (WtItem.mk [9]))).value = WtItem.mk [2] ∧
    (async_worker_execop
      (AsyncOpImpl.mk (Optype.unknownKind 99) (Format.mk "t" "" 1 2) (WtItem.mk [1])
        (WtItem.mk [2]) true true OpState.working false)
      (CursorBehavior.mk 3 4 5 (WtItem.mk [9]))).ret = EINVAL :=
  ⟨((claim_C7_executor_dispatch _ _).2.1 (Or.inl rfl)).1,
   (((claim_C7_executor_dispatch _ _).2.2.2.1 rfl).2.1 rfl).2,
   (((claim_C7_executor_dispatch _ _).2.2.2.1 rfl).2.2 rfl).2,
   (claim_C7_executor_dispatch _ _).2.2.2.2 99 rfl⟩

/-- C8: for every op that reaches transaction resolution (begin and
cursor acquisition succeeded), the op is recycled unconditionally -
whatever the executor status, the callback return and the commit or
rollback results: `op.state` becomes FREE, the KEY_SET and VALUE_SET
flags are cleared, the cursor is reset, and the cursor stays cached (the
worker's cache after the call is the cache produced by the cursor
acquisition, still holding the used cursor). -/
theorem claim_C8_unconditional_recycle (env : OpEnv) (op : AsyncOpImpl)
    (w : WorkerState) (cres : CursorResult) (hbegin : env.beginRet = 0)
    (hcur : async_worker_cursor env.cursorEnv op w = Except.ok cres) :
    (async_worker_op env op w).op.state = OpState.free ∧
    (async_worker_op env op w).op.keySet = false ∧
    (async_worker_op env op w).op.valueSet = false ∧
    Event.cursorReset ∈ (async_worker_op env op w).trace ∧
    (async_worker_op env op w).worker = cres.worker ∧
    (((async_worker_op env op w).worker.cursorqh.any fun ac =>
        ac.c == cres.cursor) = true) ∧
    (∀ cr rr : Int,
      (async_worker_op { env with commitRet := cr, rollbackRet := rr } op w).op.state =
        OpState.free) := by
  have heq := async_worker_op_ok env op w cres hbegin hcur
  obtain ⟨ac, hmem, h1, _, _⟩ := async_worker_cursor_ok_entry env.cursorEnv op w cres hcur
  refine ⟨by rw [heq], by rw [heq], by rw [heq], by rw [heq]; simp, by rw [heq], ?_, ?_⟩
  · rw [heq]
    exact List.any_eq_true.mpr ⟨ac, hmem, by simp [h1]⟩
  · intro cr rr
    have heq' := async_worker_op_ok { env with commitRet := cr, rollbackRet := rr }
      op w cres hbegin hcur
    rw [heq']

/-- C8 witness: a concrete op whose executor fails and whose commit and
rollback both fail is still recycled. -/
theorem claim_C8_witness :
    (async_worker_op
      (OpEnv.mk 0 (CursorEnv.mk 0 0 5) (CursorBehavior.mk (-2) 0 0 (WtItem.mk []))
        (fun _ => 1) (-3) (-4))
      (AsyncOpImpl.mk Optype.insert (Format.mk "t" "" 1 2) (WtItem.mk [1])
        (WtItem.mk [2]) true true OpState.working true)
      (WorkerState.mk [] 0)).op.state = OpState.free ∧
    (async_worker_op
      (OpEnv.mk 0 (CursorEnv.mk 0 0 5) (CursorBehavior.mk (-2) 0 0 (WtItem.mk []))
        (fun _ => 1) (-3) (-4))
      (AsyncOpImpl.mk Optype.insert (Format.mk "t" "" 1 2) (WtItem.mk [1])
        (WtItem.mk [2]) true true OpState.working true)
      (WorkerState.mk [] 0)).op.keySet = false :=
  ⟨(claim_C8_unconditional_recycle _ _ _
      (CursorResult.mk 5 (WorkerState.mk [AsyncCursor.mk 2 1 5] 1) true)
      rfl (by rfl)).1,
   (claim_C8_unconditional_recycle _ _ _
      (CursorResult.mk 5 (WorkerState.mk [AsyncCursor.mk 2 1 5] 1) true)
      rfl (by rfl)).2.1⟩

/-- C9: cursor-cache hit idempotence - after a successful get-or-open
call for a format, a second call (by the same worker, on the resulting
cache) for a format with the same hash pair is a cache hit: it opens no
cursor (`opened = false`) and leaves the cache unchanged. -/
theorem claim_C9_cache_hit_idempotence (env1 env2 : CursorEnv)
    (op1 op2 : AsyncOpImpl) (w : WorkerState) (r1 : CursorResult)
    (h1 : async_worker_cursor env1 op1 w = Except.ok r1)
    (hu : op2.format.uri_hash = op1.format.uri_hash)
    (hc : op2.format.cfg_hash = op1.format.cfg_hash) :
    (async_worker_cursor env2 op2 r1.worker).toOption.map CursorResult.opened =
      some false ∧
    (async_worker_cursor env2 op2 r1.worker).toOption.map CursorResult.worker =
      some r1.worker := by
  obtain ⟨ac, hmem, _, h2, h3⟩ := async_worker_cursor_ok_entry env1 op1 w r1 h1
  obtain ⟨c, hlook⟩ := cacheLookup_isSome_of_mem hmem (by rw [h2, hc])
    (by rw [h3, hu])
  rw [async_worker_cursor, hlook]
  exact ⟨rfl, rfl⟩

/-- C9 witness: a first call on an empty cache opens and caches a cursor;
a second call with an equal hash pair (even under different uri/config
strings) is a hit and leaves the cache unchanged. -/
theorem claim_C9_witness :
    (async_worker_cursor (CursorEnv.mk 0 0 7)
      (AsyncOpImpl.mk Optype.insert (Format.mk "table:b" "y" 11 22)
        (WtItem.mk []) (WtItem.mk []) false false OpState.working false)
      (WorkerState.mk [AsyncCursor.mk 22 11 7] 1)).toOption.map
        CursorResult.opened = some false ∧
    (async_worker_cursor (CursorEnv.mk 0 0 7)
      (AsyncOpImpl.mk Optype.insert (Format.mk "table:b" "y" 11 22)
        (WtItem.mk []) (WtItem.mk []) false false OpState.working false)
      (WorkerState.mk [AsyncCursor.mk 22 11 7] 1)).toOption.map
        CursorResult.worker = some (WorkerState.mk [AsyncCursor.mk 22 11 7] 1) :=
  claim_C9_cache_hit_idempotence (CursorEnv.mk 0 0 7) (CursorEnv.mk 0 0 7)
    (AsyncOpImpl.mk Optype.insert (Format.mk "table:a" "x" 11 22)
      (WtItem.mk []) (WtItem.mk []) false false OpState.working false)
    (AsyncOpImpl.mk Optype.insert (Format.mk "table:b" "y" 11 22)
      (WtItem.mk []) (WtItem.mk []) false false OpState.working false)
    (WorkerState.mk [] 0)
    (CursorResult.mk 7 (WorkerState.mk [AsyncCursor.mk 22 11 7] 1) true)
    (by rfl) rfl rfl

/-- C10: when transaction begin and cursor acquisition succeed, the
handler's return value is 0 whatever the executor status, the callback
return and the commit/rollback errors (line 170 overwrites `ret`), and
the worker loop discards the handler's return value anyway (the
`(void)` cast at line 271-272: `loopUse` keeps only the op, worker state
and side effects, so it is invariant under replacing the returned
status). -/
theorem claim_C10_return_discarded (env : OpEnv) (op : AsyncOpImpl)
    (w : WorkerState) (cres : CursorResult) (hbegin : env.beginRet = 0)
    (hcur : async_worker_cursor env.cursorEnv op w = Except.ok cres) :
    (async_worker_op env op w).ret = 0 ∧
    (∀ (r : OpResult) (z : Int), loopUse { r with ret := z } = loopUse r) := by
  have heq := async_worker_op_ok env op w cres hbegin hcur
  exact ⟨by rw [heq], fun r z => rfl⟩

/-- C10 witness: a concrete op with failing executor, non-zero callback
and failing rollback still makes the handler return 0, and `loopUse`
ignores a replaced return value. -/
theorem claim_C10_witness :
    (async_worker_op
      (OpEnv.mk 0 (CursorEnv.mk 0 0 5) (CursorBehavior.mk (-2) 0 0 (WtItem.mk []))
        (fun _ => 1) (-3) (-4))
      (AsyncOpImpl.mk Optype.insert (Format.mk "t" "" 1 2) (WtItem.mk [1])
        (WtItem.mk [2]) true true OpState.working true)
      (WorkerState.mk [] 0)).ret = 0 ∧
    loopUse (OpResult.mk 77
      (AsyncOpImpl.mk Optype.insert (Format.mk "t" "" 1 2) (WtItem.mk [1])
        (WtItem.mk [2]) true true OpState.working true)
      (WorkerState.mk [] 0) []) =
    loopUse (OpResult.mk 0
      (AsyncOpImpl.mk Optype.insert (Format.mk "t" "" 1 2) (WtItem.mk [1])
        (WtItem.mk [2]) true true OpState.working true)
      (WorkerState.mk [] 0) []) :=
  ⟨(claim_C10_return_discarded _ _ _
      (CursorResult.mk 5 (WorkerState.mk [AsyncCursor.mk 2 1 5] 1) true)
      rfl (by rfl)).1,
   (claim_C10_return_discarded
      (OpEnv.mk 0 (CursorEnv.mk 0 0 5) (CursorBehavior.mk (-2) 0 0 (WtItem.mk []))
        (fun _ => 1) (-3) (-4))
      (AsyncOpImpl.mk Optype.insert (Format.mk "t" "" 1 2) (WtItem.mk [1])
        (WtItem.mk [2]) true true OpState.working true)
      (WorkerState.mk [] 0)
      (CursorResult.mk 5 (WorkerState.mk [AsyncCursor.mk 2 1 5] 1) true)
      rfl (by rfl)).2
     (OpResult.mk 77
        (AsyncOpImpl.mk Optype.insert (Format.mk "t" "" 1 2) (WtItem.mk [1])
          (WtItem.mk [2]) true true OpState.working true)
        (WorkerState.mk [] 0) []) 0⟩

/-! ## Claims C3, C4, C5 (the worker loop and the flush protocol) -/

theorem dequeueBlock_arm_char {s : Pool} {i : Nat}
    (hf : s.flushing = false) (hf' : (dequeueBlock s i).flushing = true) :
    s.queue.head? = some QItem.sentinel ∧
    (dequeueBlock s i).flushCount = 1 ∧
    (dequeueBlock s i).queue = s.queue.tail ∧
    (dequeueBlock s i).trace =
      s.trace ++ [PEvent.dequeue i QItem.sentinel, PEvent.armFlush i] := by
  rcases hq : s.queue with _ | ⟨item, rest⟩
  · simp only [dequeueBlock, hq] at hf'
    exact (bool_ft hf hf').elim
  · cases item with
    | sentinel =>
        simp only [dequeueBlock, hq]
        refine ⟨?_, ?_, ?_, ?_⟩ <;> simp
    | work id =>
        simp only [dequeueBlock, hq] at hf'
        exact (bool_ft hf hf').elim

theorem workerStep_arm_char {s : Pool} {i : Nat}
    (hf : s.flushing = false) (hf' : (workerStep s i).flushing = true) :
    s.queue.head? = some QItem.sentinel ∧
    (workerStep s i).flushCount = 1 ∧
    (workerStep s i).queue = s.queue.tail ∧
    (workerStep s i).trace =
      s.trace ++ [PEvent.dequeue i QItem.sentinel, PEvent.armFlush i] := by
  have hfne : ¬s.flushing = true := by rw [hf]; simp
  rcases hpi : s.pcs[i]? with _ | pc
  · simp only [workerStep, hpi] at hf'
    exact (bool_ft hf hf').elim
  · cases pc with
    | atEntry =>
        simp only [workerStep, hpi] at hf' ⊢
        rw [if_neg hfne] at hf' ⊢
        exact dequeueBlock_arm_char hf hf'
    | flushWaiting =>
        simp only [workerStep, hpi] at hf' ⊢
        rw [if_neg hfne] at hf' ⊢
        exact dequeueBlock_arm_char hf hf'
    | lastRelock =>
        simp only [workerStep, hpi] at hf' ⊢
        exact dequeueBlock_arm_char hf hf'
    | armedWaiting =>
        simp only [workerStep, hpi] at hf'
        rw [if_neg hfne] at hf'
        exact (bool_ft hf hf').elim
    | postLock item =>
        cases item with
        | sentinel =>
            simp only [workerStep, hpi] at hf'
            exact (bool_ft hf hf').elim
        | work id =>
            simp only [workerStep, hpi] at hf'
            exact (bool_ft hf hf').elim
    | done =>
        simp only [workerStep, hpi] at hf'
        exact (bool_ft hf hf').elim

/-- C3: in every flush (one flush per run of the model, armed by
enqueuing the sentinel), (1) the step that sets FLUSHING sets
`flush_count` to 1 (`async->flush_count = 1` at line 263); (2) the worker
whose increment at line 210 makes `flush_count` equal
`conn->async_workers` sets COMPLETE, clears FLUSHING, releases the lock
and signals `flush_cond` (lines 218-224); and (3) in every reachable
state where COMPLETE is set, the trace records exactly one pop-and-arm
event and exactly `n - 1` increments, by pairwise distinct workers, where
every worker other than the pop-and-arm worker incremented exactly once
(so exactly `n` increments occurred, the pop-and-arm counting as 1). -/
theorem claim_C3_flush_count (n : Nat) (before after : List Nat) (s : Pool)
    (h : Reach (initPool n before after) s) :
    (∀ (i : Nat) (s' : Pool), step s (Lbl.work i) = some s' →
      s.flushing = false → s'.flushing = true → s'.flushCount = 1) ∧
    (∀ (i : Nat) (s' : Pool), step s (Lbl.work i) = some s' →
      s.pcs[i]? = some WPC.atEntry → s.flushing = true →
      s.flushCount + 1 = s.nworkers →
      s'.complete = true ∧ s'.flushing = false ∧
      s'.flushCount = s.nworkers ∧
      s'.pcs[i]? = some WPC.lastRelock ∧
      PEvent.setComplete i ∈ s'.trace ∧ PEvent.signalFlush i ∈ s'.trace) ∧
    (s.complete = true →
      (armersOf s.trace).length = 1 ∧
      (incrersOf s.trace).length = n - 1 ∧
      (incrersOf s.trace).Nodup ∧
      (∀ j : Nat, j < n →
        (PEvent.armFlush j ∈ s.trace → PEvent.incr j ∉ s.trace) ∧
        (PEvent.armFlush j ∉ s.trace → PEvent.incr j ∈ s.trace))) := by
  have inv := reach_inv h
  refine ⟨?_, ?_, ?_⟩
  · intro i s' hstep hf hf'
    simp only [step] at hstep
    by_cases hi : i < s.pcs.length
    · rw [if_pos hi] at hstep
      cases Option.some_inj.mp hstep
      exact (workerStep_arm_char hf hf').2.1
    · rw [if_neg hi] at hstep
      exact Option.noConfusion hstep
  · intro i s' hstep hpi hf hN
    have hin : i < s.pcs.length := lt_length_of_getElem? hpi
    simp only [step] at hstep
    rw [if_pos hin] at hstep
    cases Option.some_inj.mp hstep
    simp only [workerStep, hpi]
    rw [if_pos hf, if_pos hN]
    refine ⟨rfl, rfl, hN, List.getElem?_set_eq_of_lt WPC.lastRelock hin, ?_, ?_⟩ <;>
      simp
  · intro hc
    obtain ⟨_, _, hlen, hnodup, ⟨a, ha, haN, haNot⟩, hbound⟩ := inv.comp_inv hc
    have hmemA : ∀ j : Nat, PEvent.armFlush j ∈ s.trace ↔ j = a := by
      intro j
      rw [← mem_armersOf, ha, List.mem_singleton]
    refine ⟨by rw [ha]; rfl, hlen, hnodup, ?_⟩
    have hn1 : 1 ≤ n := Nat.one_le_of_lt (Nat.lt_of_lt_of_le haN (Nat.le_refl n))
    have hsub : (incrersOf s.trace).toFinset ⊆ (Finset.range n).erase a := by
      intro x hx
      rw [List.mem_toFinset] at hx
      rw [Finset.mem_erase, Finset.mem_range]
      refine ⟨?_, hbound x hx⟩
      intro h0
      rw [h0] at hx
      exact haNot hx
    have hcard1 : ((Finset.range n).erase a).card = n - 1 := by
      rw [Finset.card_erase_of_mem (Finset.mem_range.mpr haN), Finset.card_range]
    have hcard2 : (incrersOf s.trace).toFinset.card = n - 1 := by
      rw [List.toFinset_card_of_nodup hnodup, hlen]
    have hfeq : (incrersOf s.trace).toFinset = (Finset.range n).erase a :=
      Finset.eq_of_subset_of_card_le hsub (by rw [hcard1, hcard2])
    intro j hj
    constructor
    · intro hjarm hjincr
      have hja : j = a := (hmemA j).mp hjarm
      rw [← mem_incrersOf] at hjincr
      rw [hja] at hjincr
      exact haNot hjincr
    · intro hjarm
      have hja : j ≠ a := by
        intro h0
        exact hjarm ((hmemA j).mpr h0)
      have : j ∈ (Finset.range n).erase a :=
        Finset.mem_erase.mpr ⟨hja, Finset.mem_range.mpr hj⟩
      rw [← hfeq, List.mem_toFinset, mem_incrersOf] at this
      exact this

/-- Concrete two-worker run for the C3 witness: worker 0 pops the
sentinel and arms the flush. -/
def c3sA : Pool :=
  Pool.mk true true false 1 [] 0 2 [WPC.armedWaiting, WPC.atEntry]
    [PEvent.dequeue 0 QItem.sentinel, PEvent.armFlush 0]

/-- Concrete two-worker run for the C3 witness: worker 1 then increments
`flush_count` to 2 = N and completes the flush. -/
def c3sB : Pool :=
  Pool.mk true false true 2 [] 0 2 [WPC.armedWaiting, WPC.lastRelock]
    [PEvent.dequeue 0 QItem.sentinel, PEvent.armFlush 0, PEvent.incr 1,
     PEvent.setComplete 1, PEvent.signalFlush 1]

/-- C3 witness: the two-worker run above - arming sets `flush_count` to
1, the last worker's increment completes the flush, and in the COMPLETE
state the trace holds one arm event and `2 - 1` increments by the other
worker. -/
theorem claim_C3_witness :
    c3sA.flushCount = 1 ∧
    c3sB.complete = true ∧ c3sB.flushing = false ∧ c3sB.flushCount = 2 ∧
    (armersOf c3sB.trace).length = 1 ∧
    (incrersOf c3sB.trace).length = 2 - 1 ∧
    (PEvent.armFlush 1 ∉ c3sB.trace → PEvent.incr 1 ∈ c3sB.trace) := by
  have hstepA : step (initPool 2 [] []) (Lbl.work 0) = some c3sA := by decide
  have hstepB : step c3sA (Lbl.work 1) = some c3sB := by decide
  have hrA : Reach (initPool 2 [] []) c3sA :=
    Reach.tail (Reach.refl _) hstepA
  have hrB : Reach (initPool 2 [] []) c3sB := Reach.tail hrA hstepB
  have h1 := (claim_C3_flush_count 2 [] [] (initPool 2 [] [])
    (Reach.refl _)).1 0 c3sA hstepA rfl rfl
  have h2 := (claim_C3_flush_count 2 [] [] c3sA hrA).2.1 1 c3sB hstepB
    (by decide) rfl (by decide)
  have h3 := (claim_C3_flush_count 2 [] [] c3sB hrB).2.2 h2.1
  exact ⟨h1, h2.1, h2.2.1, h2.2.2.1, h3.1, h3.2.1, (h3.2.2.2 1 (by decide)).2⟩

/-- C4 counterexample run, state 1: worker 0 has dequeued op 7 (FLUSHING
clear) and holds it outside the lock at line 271. -/
def c4s1 : Pool :=
  Pool.mk true false false 0 [QItem.sentinel] 1 2
    [WPC.postLock (QItem.work 7), WPC.atEntry]
    [PEvent.dequeue 0 (QItem.work 7)]

/-- C4 counterexample run, state 2: worker 1 has popped the sentinel and
set FLUSHING while worker 0 still holds op 7 un-executed. -/
def c4s2 : Pool :=
  Pool.mk true true false 1 [] 0 2
    [WPC.postLock (QItem.work 7), WPC.armedWaiting]
    [PEvent.dequeue 0 (QItem.work 7), PEvent.dequeue 1 QItem.sentinel,
     PEvent.armFlush 1]

/-- C4 counterexample run, state 3: worker 0 executes op 7 - while
FLUSHING is set. -/
def c4s3 : Pool :=
  Pool.mk true true false 1 [] 0 2
    [WPC.atEntry, WPC.armedWaiting]
    [PEvent.dequeue 0 (QItem.work 7), PEvent.dequeue 1 QItem.sentinel,
     PEvent.armFlush 1, PEvent.execop 0 (QItem.work 7)]

/-- C4, counterexample: a reachable two-worker state in which FLUSHING is
set and worker 0 nevertheless executes (runs `__async_worker_op` on) the
non-sentinel op 7: worker 0 dequeued the op and released the lock before
worker 1 popped the sentinel and set FLUSHING (line 271 runs outside the
lock and never re-checks FLUSHING).  This refutes "no worker ...
executes any non-sentinel op while FLUSHING is set"; the dequeue half of
the claim does hold and is proved as the amended claim. -/
theorem claim_C4_counterexample :
    Reach (initPool 2 [7] []) c4s2 ∧
    c4s2.flushing = true ∧
    step c4s2 (Lbl.work 0) = some c4s3 ∧
    c4s3.flushing = true ∧
    PEvent.execop 0 (QItem.work 7) ∈ c4s3.trace ∧
    PEvent.execop 0 (QItem.work 7) ∉ c4s2.trace := by
  refine ⟨?_, rfl, by decide, rfl, by decide, by decide⟩
  exact Reach.tail (Reach.tail (Reach.refl _)
    (show step (initPool 2 [7] []) (Lbl.work 0) = some c4s1 by decide))
    (show step c4s1 (Lbl.work 1) = some c4s2 by decide)

/-- C4, amended: while FLUSHING is set no worker DEQUEUES any
non-sentinel op - every step that records a new dequeue of a work item
starts from a state with FLUSHING clear - and a worker that observes
FLUSHING on entering the loop takes the wait path (a worker parked in
`__async_flush_wait` does not move while FLUSHING is set), so it only
proceeds to the dequeue step after FLUSHING has been cleared.  A worker
may however still be executing an op it dequeued before FLUSHING was set
(see the counterexample). -/
theorem claim_C4_amended_no_dequeue_while_flushing (n : Nat)
    (before after : List Nat) (s : Pool) (h : Reach (initPool n before after) s) :
    (∀ (l : Lbl) (s' : Pool) (i id : Nat),
      step s l = some s' →
      PEvent.dequeue i (QItem.work id) ∈ s'.trace →
      PEvent.dequeue i (QItem.work id) ∉ s.trace →
      s.flushing = false) ∧
    (∀ i : Nat, s.pcs[i]? = some WPC.flushWaiting → s.flushing = true →
      step s (Lbl.work i) = some s) := by
  have inv := reach_inv h
  constructor
  · intro l s' i id hstep hmem hnot
    cases l with
    | enq id' =>
        simp only [step] at hstep
        cases Option.some_inj.mp hstep
        exact absurd hmem hnot
    | exit j =>
        simp only [step] at hstep
        by_cases hj : s.pcs[j]? = some WPC.atEntry
        · rw [if_pos hj] at hstep
          cases Option.some_inj.mp hstep
          exact absurd hmem hnot
        · rw [if_neg hj] at hstep
          exact Option.noConfusion hstep
    | work j =>
        simp only [step] at hstep
        by_cases hjlen : j < s.pcs.length
        swap
        · rw [if_neg hjlen] at hstep
          exact Option.noConfusion hstep
        rw [if_pos hjlen] at hstep
        cases Option.some_inj.mp hstep
        rcases hpj : s.pcs[j]? with _ | pc
        · simp only [workerStep, hpj] at hmem
          exact absurd hmem hnot
        cases pc with
        | atEntry =>
            by_cases hfl : s.flushing = true
            swap
            · revert hfl
              cases s.flushing <;> simp
            simp only [workerStep, hpj, if_pos hfl] at hmem
            by_cases hN : s.flushCount + 1 = s.nworkers
            · rw [if_pos hN] at hmem
              rcases List.mem_append.mp hmem with h1 | h1
              · exact absurd h1 hnot
              · simp at h1
            · rw [if_neg hN] at hmem
              rcases List.mem_append.mp hmem with h1 | h1
              · exact absurd h1 hnot
              · simp at h1
        | flushWaiting =>
            by_cases hfl : s.flushing = true
            · simp only [workerStep, hpj, if_pos hfl] at hmem
              exact absurd hmem hnot
            · revert hfl
              cases s.flushing <;> simp
        | lastRelock =>
            exact (inv.comp_inv (inv.relock_comp j hpj)).1
        | armedWaiting =>
            by_cases hfl : s.flushing = true
            · simp only [workerStep, hpj, if_pos hfl] at hmem
              exact absurd hmem hnot
            · simp only [workerStep, hpj, if_neg hfl] at hmem
              exact absurd hmem hnot
        | postLock item =>
            cases item with
            | sentinel =>
                simp only [workerStep, hpj] at hmem
                exact absurd hmem hnot
            | work id' =>
                simp only [workerStep, hpj] at hmem
                rcases List.mem_append.mp hmem with h1 | h1
                · exact absurd h1 hnot
                · simp at h1
        | done =>
            simp only [workerStep, hpj] at hmem
            exact absurd hmem hnot
  · intro i hpi hfl
    have hin : i < s.pcs.length := lt_length_of_getElem? hpi
    simp only [step]
    rw [if_pos hin]
    simp only [workerStep, hpi, if_pos hfl]

/-- C4 witness run: three workers, worker 0 armed the flush and worker 1
has incremented `flush_count` and waits on `flush_cond`. -/
def c4s4 : Pool :=
  Pool.mk true true false 2 [] 0 3
    [WPC.armedWaiting, WPC.flushWaiting, WPC.atEntry]
    [PEvent.dequeue 0 QItem.sentinel, PEvent.armFlush 0, PEvent.incr 1]

/-- C4 witness for the amended claim: the concrete dequeue of op 7 in the
counterexample run happens from a state with FLUSHING clear, and a
concrete worker parked in `__async_flush_wait` does not move while
FLUSHING is set. -/
theorem claim_C4_witness :
    (initPool 2 [7] []).flushing = false ∧
    step c4s4 (Lbl.work 1) = some c4s4 := by
  constructor
  · exact (claim_C4_amended_no_dequeue_while_flushing 2 [7] []
      (initPool 2 [7] []) (Reach.refl _)).1 (Lbl.work 0) c4s1 0 7
      (by decide) (by decide) (by decide)
  · have hr : Reach (initPool 3 [] []) c4s4 :=
      Reach.tail (Reach.tail (Reach.refl _)
        (show step (initPool 3 [] []) (Lbl.work 0) = some
          (Pool.mk true true false 1 [] 0 3
            [WPC.armedWaiting, WPC.atEntry, WPC.atEntry]
            [PEvent.dequeue 0 QItem.sentinel, PEvent.armFlush 0]) by decide))
        (show step
          (Pool.mk true true false 1 [] 0 3
            [WPC.armedWaiting, WPC.atEntry, WPC.atEntry]
            [PEvent.dequeue 0 QItem.sentinel, PEvent.armFlush 0])
          (Lbl.work 1) = some c4s4 by decide)
    exact (claim_C4_amended_no_dequeue_while_flushing 3 [] [] c4s4 hr).2 1
      (by decide) rfl

/-- C5: (1) FLUSHING is set only by a worker step (producer enqueues and
worker exits never change it), and the step that sets it is the one in
which that single worker removes the flush sentinel from the queue head -
after the step the sentinel is gone from the queue, and the trace records
the removal before the `armFlush` in the same atomic region (lines
250-264); (2) the trace never records more than one pop-and-arm; and (3)
the sentinel is never passed to the op handler: no `execop` event on the
sentinel ever occurs (the guard `op != &async->flush_op` at line 271). -/
theorem claim_C5_sentinel_pop_and_arm (n : Nat) (before after : List Nat)
    (s : Pool) (h : Reach (initPool n before after) s) :
    (∀ (i : Nat) (s' : Pool), step s (Lbl.work i) = some s' →
      s.flushing = false → s'.flushing = true →
      s.queue.head? = some QItem.sentinel ∧
      s'.queue = s.queue.tail ∧
      QItem.sentinel ∉ s'.queue ∧
      s'.trace = s.trace ++ [PEvent.dequeue i QItem.sentinel, PEvent.armFlush i] ∧
      s'.flushCount = 1) ∧
    (∀ (id : Nat) (s' : Pool), step s (Lbl.enq id) = some s' →
      s'.flushing = s.flushing) ∧
    (∀ (i : Nat) (s' : Pool), step s (Lbl.exit i) = some s' →
      s'.flushing = s.flushing) ∧
    ((armersOf s.trace).length ≤ 1) ∧
    (∀ i : Nat, PEvent.execop i QItem.sentinel ∉ s.trace) := by
  have inv := reach_inv h
  refine ⟨?_, ?_, ?_, ?_, inv.no_exec_sent⟩
  · intro i s' hstep hf hf'
    have hreach' : Reach (initPool n before after) s' := Reach.tail h hstep
    have inv' := reach_inv hreach'
    have hnosent : QItem.sentinel ∉ s'.queue := by
      have hane : armersOf s'.trace ≠ [] := by
        intro h0
        exact bool_ft (inv'.phase0 h0).1 hf'
      rcases inv'.sent_arm with ⟨_, ha0⟩ | ⟨hc0, _⟩
      · exact absurd ha0 hane
      · exact List.count_eq_zero.mp hc0
    simp only [step] at hstep
    by_cases hi : i < s.pcs.length
    · rw [if_pos hi] at hstep
      cases Option.some_inj.mp hstep
      obtain ⟨h1, h2, h3, h4⟩ := workerStep_arm_char hf hf'
      exact ⟨h1, h3, hnosent, h4, h2⟩
    · rw [if_neg hi] at hstep
      exact Option.noConfusion hstep
  · intro id s' hstep
    simp only [step] at hstep
    cases Option.some_inj.mp hstep
    rfl
  · intro i s' hstep
    simp only [step] at hstep
    by_cases hj : s.pcs[i]? = some WPC.atEntry
    · rw [if_pos hj] at hstep
      cases Option.some_inj.mp hstep
      rfl
    · rw [if_neg hj] at hstep
      exact Option.noConfusion hstep
  · rcases inv.sent_arm with ⟨_, ha⟩ | ⟨_, a, ha⟩ <;> rw [ha] <;> simp

/-- C5 witness run: one worker, the queue holding just the sentinel; the
worker pops it and arms the flush. -/
def c5s1 : Pool :=
  Pool.mk true true false 1 [] 0 1 [WPC.armedWaiting]
    [PEvent.dequeue 0 QItem.sentinel, PEvent.armFlush 0]

/-- C5 witness: the concrete pop-and-arm step removes the sentinel from
the queue head, records `dequeue` then `armFlush` for the same worker in
one atomic region, and the resulting trace holds one arm event and no
sentinel execution. -/
theorem claim_C5_witness :
    (initPool 1 [] []).queue.head? = some QItem.sentinel ∧
    QItem.sentinel ∉ c5s1.queue ∧
    c5s1.trace = (initPool 1 [] []).trace ++
      [PEvent.dequeue 0 QItem.sentinel, PEvent.armFlush 0] ∧
    c5s1.flushCount = 1 ∧
    (armersOf c5s1.trace).length ≤ 1 ∧
    PEvent.execop 0 QItem.sentinel ∉ c5s1.trace := by
  have hstep : step (initPool 1 [] []) (Lbl.work 0) = some c5s1 := by decide
  have h1 := (claim_C5_sentinel_pop_and_arm 1 [] [] (initPool 1 [] [])
    (Reach.refl _)).1 0 c5s1 hstep rfl rfl
  have hr : Reach (initPool 1 [] []) c5s1 := Reach.tail (Reach.refl _) hstep
  have h2 := claim_C5_sentinel_pop_and_arm 1 [] [] c5s1 hr
  exact ⟨h1.1, h1.2.2.1, h1.2.2.2.1, h1.2.2.2.2, h2.2.2.2.1, h2.2.2.2.2 0⟩

end AsyncWorker
